import Mathlib

/-!
Verification of the block-world voxel renderer core: the face-visibility
culling algorithm (`src/renderer/culling/mod.rs`) and the GPU chunk storage
allocator (`src/renderer/render_faces/mod.rs`), over a shallow embedding of
the Rust data model (`src/types.rs`).

Partial operations in the Rust code (indexing that can panic, `unwrap` on
`pop`) are embedded as `Option`-returning functions: `none` models a panic.
Fixed-size arrays are embedded as total functions over their index domain.
-/

namespace BlockWorld

/-! ## Data model, from src/types.rs -/

/-- `Direction` enum from src/types.rs. -/
inductive Direction where
  | Up
  | Down
  | North
  | South
  | East
  | West
deriving DecidableEq, Repr

/-- `Direction::ALL`, in source order. -/
def Direction.ALL : List Direction :=
  [.Up, .Down, .North, .South, .East, .West]

/-- `Direction::to_offset`. -/
def Direction.toOffset : Direction → Int × Int × Int
  | .Up => (0, 1, 0)
  | .Down => (0, -1, 0)
  | .North => (0, 0, -1)
  | .South => (0, 0, 1)
  | .East => (1, 0, 0)
  | .West => (-1, 0, 0)

/-- `BlockTypeId = usize`. -/
abbrev BlockTypeId := Nat

/-- `TextureId = usize`. -/
abbrev TextureId := Nat

/-- `BlockTextures`: a map from directions to texture ids
(`HashMap<Direction, TextureId>`), embedded as an association list. -/
structure BlockTextures where
  textures : List (Direction × TextureId)
deriving DecidableEq

/-- `BlockTextures::default()`: the empty map. -/
def BlockTextures.emptyTextures : BlockTextures := ⟨[]⟩

/-- `BlockTextures::uniform`. -/
def BlockTextures.uniform (textureId : TextureId) : BlockTextures :=
  ⟨Direction.ALL.map (fun d => (d, textureId))⟩

/-- `BlockType` record from src/types.rs. -/
structure BlockType where
  name : String
  textures : BlockTextures
  transparent : Bool
deriving DecidableEq

/-- `TextureRegistry`: an insertion-ordered map from texture names to images
(`IndexMap<String, Texture>`); image payloads are irrelevant to the verified
core, so only the ordered key list is embedded. -/
structure TextureRegistry where
  names : List String
deriving DecidableEq

/-- `IndexMap::get_index_of` on a `TextureRegistry`. -/
def TextureRegistry.getIndexOf (tr : TextureRegistry) (s : String) : Option Nat :=
  tr.names.indexOf? s

/-- `BlockRegistry`: an insertion-ordered map from block names to block types
(`IndexMap<String, BlockType>`), embedded as a list in insertion order. -/
structure BlockRegistry where
  block_types : List (String × BlockType)
deriving DecidableEq

/-- `BlockRegistry::default()`: only "air", transparent. -/
def BlockRegistry.defaultRegistry : BlockRegistry :=
  ⟨[("air", ⟨"air", BlockTextures.emptyTextures, true⟩)]⟩

/-- `BlockRegistry::new(texture_registry)`: air, stone, grass; the `unwrap`
on the texture index lookups is modelled by `Option`. -/
def BlockRegistry.new (tr : TextureRegistry) : Option BlockRegistry := do
  let stoneTex ← tr.getIndexOf "stone"
  let grassTex ← tr.getIndexOf "grass"
  pure ⟨[("air", ⟨"air", BlockTextures.emptyTextures, true⟩),
         ("stone", ⟨"stone", BlockTextures.uniform stoneTex, false⟩),
         ("grass", ⟨"grass", BlockTextures.uniform grassTex, false⟩)]⟩

/-- `BlockRegistry::is_block_transparent`: `self.block_types[id].transparent`.
`IndexMap`'s `Index<usize>` panics when the index is out of range, modelled
by `none`. -/
def BlockRegistry.isBlockTransparent (r : BlockRegistry) (id : BlockTypeId) :
    Option Bool :=
  (r.block_types.get? id).map (fun e => e.2.transparent)

/-- `Chunk`: a dense `[[[BlockTypeId; 16]; 16]; 256]` array indexed
`blocks[y][x][z]` with `y < 256`, `x < 16`, `z < 16`, embedded as a total
function on the index domain. -/
structure Chunk where
  blocks : Nat → Nat → Nat → BlockTypeId

/-- `Chunk::default()`: all air. -/
def Chunk.defaultChunk : Chunk := ⟨fun _ _ _ => 0⟩

/-- `ChunkPosition` from src/types.rs. -/
structure ChunkPosition where
  x : Int
  z : Int
deriving DecidableEq

/-- `World`: `chunks: HashMap<ChunkPosition, Chunk>` (embedded as an
association list) plus the block registry. -/
structure World where
  chunks : List (ChunkPosition × Chunk)
  block_registry : BlockRegistry

/-- `world.chunks.get(&pos)`. -/
def World.getChunk (w : World) (p : ChunkPosition) : Option Chunk :=
  (w.chunks.find? (fun e => decide (e.1 = p))).map (fun e => e.2)

/-! ## Face culling, from src/renderer/culling/mod.rs -/

/-- `VisibleFace` record. -/
structure VisibleFace where
  position : Nat × Nat × Nat
  direction : Direction
  block_type_id : BlockTypeId
deriving DecidableEq

/-- `VisibleFace::all_faces`. -/
def VisibleFace.allFaces (position : Nat × Nat × Nat) (id : BlockTypeId) :
    List VisibleFace :=
  Direction.ALL.map (fun d => ⟨position, d, id⟩)

/-- One iteration of the direction loop in `check_visible_faces_for_block`:
the faces (possibly none) pushed for direction `d`, or `none` when a
registry lookup on a neighbor block id panics. -/
def checkDir (world : World) (chunk : Chunk) (chunkPosition : ChunkPosition)
    (blockTypeId : BlockTypeId) (x y z : Nat) (d : Direction) :
    Option (List VisibleFace) :=
  let off := d.toOffset
  let nx : Int := (x : Int) + off.1
  let ny : Int := (y : Int) + off.2.1
  let nz : Int := (z : Int) + off.2.2
  if (y ≤ 0 ∧ d = .Down) ∨ (255 ≤ y ∧ d = .Up) then
    some [⟨(x, y, z), d, blockTypeId⟩]
  else if nx < 0 ∨ 16 ≤ nx ∨ nz < 0 ∨ 16 ≤ nz then
    match world.getChunk ⟨chunkPosition.x + off.1, chunkPosition.z + off.2.2⟩ with
    | none => some []
    | some neighborChunk =>
      let nid := neighborChunk.blocks y ((nx + 16) % 16).toNat ((nz + 16) % 16).toNat
      (world.block_registry.isBlockTransparent nid).map
        (fun t => if t then [⟨(x, y, z), d, blockTypeId⟩] else [])
  else
    let nid := chunk.blocks ny.toNat nx.toNat nz.toNat
    (world.block_registry.isBlockTransparent nid).map
      (fun t => if t then [⟨(x, y, z), d, blockTypeId⟩] else [])

/-- The direction loop of `check_visible_faces_for_block`, accumulating
the visible faces in direction order; a panic (`none`) aborts the loop. -/
def checkDirs (world : World) (chunk : Chunk) (chunkPosition : ChunkPosition)
    (blockTypeId : BlockTypeId) (x y z : Nat) :
    List Direction → Option (List VisibleFace)
  | [] => some []
  | d :: ds => do
    let fs ← checkDir world chunk chunkPosition blockTypeId x y z d
    let rest ← checkDirs world chunk chunkPosition blockTypeId x y z ds
    pure (fs ++ rest)

/-- `check_visible_faces_for_block`. -/
def checkVisibleFacesForBlock (blockTypeId : BlockTypeId) (world : World)
    (chunk : Chunk) (chunkPosition : ChunkPosition)
    (blockPosition : Nat × Nat × Nat) : Option (List VisibleFace) :=
  if blockTypeId = 0 then
    some []
  else do
    let t ← world.block_registry.isBlockTransparent blockTypeId
    if t then
      pure (VisibleFace.allFaces blockPosition blockTypeId)
    else
      checkDirs world chunk chunkPosition blockTypeId
        blockPosition.1 blockPosition.2.1 blockPosition.2.2 Direction.ALL

/-- Innermost loop of `cull_faces_for_chunk`: iterate `z` over a column. -/
def cullZ (world : World) (chunk : Chunk) (chunkPosition : ChunkPosition)
    (y x : Nat) : List Nat → Option (List VisibleFace)
  | [] => some []
  | z :: zs => do
    let fs ← checkVisibleFacesForBlock (chunk.blocks y x z) world chunk
      chunkPosition (x, y, z)
    let rest ← cullZ world chunk chunkPosition y x zs
    pure (fs ++ rest)

/-- Middle loop of `cull_faces_for_chunk`: iterate `x` over a plane. -/
def cullX (world : World) (chunk : Chunk) (chunkPosition : ChunkPosition)
    (y : Nat) : List Nat → Option (List VisibleFace)
  | [] => some []
  | x :: xs => do
    let fs ← cullZ world chunk chunkPosition y x (List.range 16)
    let rest ← cullX world chunk chunkPosition y xs
    pure (fs ++ rest)

/-- Outer loop of `cull_faces_for_chunk`: iterate `y` over the layers. -/
def cullY (world : World) (chunk : Chunk) (chunkPosition : ChunkPosition) :
    List Nat → Option (List VisibleFace)
  | [] => some []
  | y :: ys => do
    let fs ← cullX world chunk chunkPosition y (List.range 16)
    let rest ← cullY world chunk chunkPosition ys
    pure (fs ++ rest)

/-- `cull_faces_for_chunk`: all visible faces of a chunk, enumerating
blocks in `y`, `x`, `z` order as the source's nested iterators do. -/
def cullFacesForChunk (world : World) (chunk : Chunk)
    (chunkPosition : ChunkPosition) : Option (List VisibleFace) :=
  cullY world chunk chunkPosition (List.range 256)

/-- The per-chunk loop of `cull_faces`, collecting each chunk's result. -/
def cullChunksList (world : World) :
    List (ChunkPosition × Chunk) → Option (List (ChunkPosition × List VisibleFace))
  | [] => some []
  | e :: rest => do
    let fs ← cullFacesForChunk world e.2 e.1
    let r ← cullChunksList world rest
    pure ((e.1, fs) :: r)

/-- `cull_faces`: cull every chunk of the world. -/
def cullFaces (world : World) : Option (List (ChunkPosition × List VisibleFace)) :=
  cullChunksList world world.chunks

/-- Total number of visible faces across the whole world, the quantity the
repository's `test_chunk_dig_one_block` sums. -/
def totalVisibleFaces (world : World) : Option Nat :=
  (cullFaces world).map (fun l => (l.map (fun e => e.2.length)).sum)

/-! ## GPU chunk storage, from src/renderer/render_faces/mod.rs -/

/-- `task::Block` (`GpuBlock`): the per-voxel GPU payload record. -/
structure GpuBlock where
  voxel_offset : Nat
  voxel_len : Nat
  connected_bits : Nat
deriving DecidableEq

/-- `GpuChunkStorage`. The two GPU buffers are embedded as total functions:
`chunk_buffer` maps (slot id, local block index) to the stored payload,
`index_buffer` maps a flat entry index to a `[chunk_index, block_index]`
pair. `chunk_blocks_map` (a `HashMap`) is embedded as an association list,
`chunk_holes` as a list popped from its end (`Vec::pop`). -/
structure GpuChunkStorage where
  chunk_buffer : Nat → Nat → GpuBlock
  index_buffer : Nat → Nat × Nat
  chunk_blocks_map : List (ChunkPosition × Nat × Finset Nat)
  chunk_holes : List Nat

/-- `ChunkUpdate`. -/
structure ChunkUpdate where
  block_index : Nat
  block : Option GpuBlock

/-- `GpuChunkStorage::new(allocator, chunks)`: empty map, free list
`(0..chunks).rev()`. The freshly allocated GPU buffers have unspecified
contents, modelled by the parameters `buf0` and `idx0`. -/
def GpuChunkStorage.new (chunks : Nat) (buf0 : Nat → Nat → GpuBlock)
    (idx0 : Nat → Nat × Nat) : GpuChunkStorage :=
  { chunk_buffer := buf0
    index_buffer := idx0
    chunk_blocks_map := []
    chunk_holes := (List.range chunks).reverse }

/-- Lookup of a chunk position's entry in `chunk_blocks_map`. -/
def GpuChunkStorage.findEntry (s : GpuChunkStorage) (pos : ChunkPosition) :
    Option (ChunkPosition × Nat × Finset Nat) :=
  s.chunk_blocks_map.find? (fun e => decide (e.1 = pos))

/-- The update loop body of `GpuChunkStorage::update`: apply a batch of
`ChunkUpdate`s to the chunk buffer and the occupied set of the chunk
holding slot `chunkIndex`. A payload-carrying update writes the payload at
`[chunkIndex][block_index]` and inserts `block_index` into the occupied
set; a payload-free update removes `block_index` from the occupied set and
issues no buffer write. -/
def applyUpdates (buf : Nat → Nat → GpuBlock) (chunkIndex : Nat)
    (blockIndices : Finset Nat) :
    List ChunkUpdate → (Nat → Nat → GpuBlock) × Finset Nat
  | [] => (buf, blockIndices)
  | u :: us =>
    match u.block with
    | some b =>
      applyUpdates
        (fun ci bi => if ci = chunkIndex ∧ bi = u.block_index then b else buf ci bi)
        chunkIndex (insert u.block_index blockIndices) us
    | none =>
      applyUpdates buf chunkIndex (blockIndices.erase u.block_index) us

/-- `GpuChunkStorage::update`. A missing entry pops a slot id from the end
of the free list (`self.chunk_holes.pop().unwrap()`); the `unwrap` panic on
an empty free list is modelled by `none`. -/
def GpuChunkStorage.update (s : GpuChunkStorage) (pos : ChunkPosition)
    (updates : List ChunkUpdate) : Option GpuChunkStorage :=
  match s.findEntry pos with
  | some (_, chunkIndex, blockIndices) =>
    let r := applyUpdates s.chunk_buffer chunkIndex blockIndices updates
    some { s with
      chunk_buffer := r.1
      chunk_blocks_map := s.chunk_blocks_map.map
        (fun e => if e.1 = pos then (pos, chunkIndex, r.2) else e) }
  | none =>
    match s.chunk_holes.getLast? with
    | none => none
    | some chunkIndex =>
      let r := applyUpdates s.chunk_buffer chunkIndex ∅ updates
      some { s with
        chunk_buffer := r.1
        chunk_blocks_map := (pos, chunkIndex, r.2) :: s.chunk_blocks_map
        chunk_holes := s.chunk_holes.dropLast }

/-- The pair sequence written by `upload_indices`, in map iteration order
(the `HashSet` iteration order inside each chunk is arbitrary in the
source; the embedding enumerates each occupied set in ascending order). -/
def GpuChunkStorage.indexPairs (s : GpuChunkStorage) : List (Nat × Nat) :=
  s.chunk_blocks_map.flatMap
    (fun e => (e.2.2.sort (· ≤ ·)).map (fun bi => (e.2.1, bi)))

/-- The sequential write loop of `upload_indices`: write the pairs into the
index buffer starting at entry `i`, returning the buffer and the final
counter. -/
def writeIndices (buf : Nat → Nat × Nat) (i : Nat) :
    List (Nat × Nat) → (Nat → Nat × Nat) × Nat
  | [] => (buf, i)
  | p :: ps => writeIndices (fun j => if j = i then p else buf j) (i + 1) ps

/-- `GpuChunkStorage::upload_indices` (the spec's `rebuild_index`): rewrite
the index buffer from the current map and return the number of entries
written. Only the index buffer changes. -/
def GpuChunkStorage.uploadIndices (s : GpuChunkStorage) : GpuChunkStorage × Nat :=
  let r := writeIndices s.index_buffer 0 s.indexPairs
  ({ s with index_buffer := r.1 }, r.2)

/-- The slot ids assigned in `chunk_blocks_map`, in map order. -/
def GpuChunkStorage.assignedSlots (s : GpuChunkStorage) : List Nat :=
  s.chunk_blocks_map.map (fun e => e.2.1)

/-- The occupied set currently recorded for a chunk position (empty when
the position has no entry). -/
def GpuChunkStorage.occOf (s : GpuChunkStorage) (pos : ChunkPosition) : Finset Nat :=
  match s.findEntry pos with
  | some e => e.2.2
  | none => ∅

/-- The free-list/assignment invariant of a capacity-`n` storage: distinct
keys, pairwise-distinct assigned slots disjoint from the free list, and
the assigned slots and free list together exactly cover `[0, n)`. -/
def SlotInv (n : Nat) (s : GpuChunkStorage) : Prop :=
  (s.chunk_blocks_map.map (fun e => e.1)).Nodup ∧
  s.assignedSlots.Nodup ∧
  s.chunk_holes.Nodup ∧
  (∀ i ∈ s.assignedSlots, i ∉ s.chunk_holes) ∧
  (∀ i : Nat, (i ∈ s.chunk_holes ∨ i ∈ s.assignedSlots) ↔ i < n)

/-- The states of a `GpuChunkStorage` of capacity `n` reachable from
`new` by successful `update` calls (`upload_indices` reads the map and
writes only the index buffer; it is applied separately). -/
inductive Reachable (n : Nat) : GpuChunkStorage → Prop where
  | init (buf0 : Nat → Nat → GpuBlock) (idx0 : Nat → Nat × Nat) :
      Reachable n (GpuChunkStorage.new n buf0 idx0)
  | step {s s' : GpuChunkStorage} {pos : ChunkPosition} {us : List ChunkUpdate} :
      Reachable n s → s.update pos us = some s' → Reachable n s'
  | upload {s : GpuChunkStorage} :
      Reachable n s → Reachable n s.uploadIndices.1

/-! ## Concrete fixtures for the scenario claims -/

/-- Registry with air (transparent) and one solid block type, matching the
transparency layout of `BlockRegistry::new`. -/
def testRegistry : BlockRegistry :=
  ⟨[("air", ⟨"air", BlockTextures.emptyTextures, true⟩),
    ("stone", ⟨"stone", BlockTextures.uniform 0, false⟩)]⟩

/-- A 16×16×64 solid slab: block type 1 for `y < 64`, air above. -/
def slabChunk : Chunk := ⟨fun y _ _ => if y < 64 then 1 else 0⟩

/-- World holding exactly the slab chunk at position (0, 0). -/
def slabWorld : World := ⟨[(⟨0, 0⟩, slabChunk)], testRegistry⟩

/-- The slab with the single block at local (x, y, z) = (1, 63, 1) dug out. -/
def dugChunk : Chunk :=
  ⟨fun y x z => if y = 63 ∧ x = 1 ∧ z = 1 then 0 else if y < 64 then 1 else 0⟩

/-- World holding exactly the dug chunk at position (0, 0). -/
def dugWorld : World := ⟨[(⟨0, 0⟩, dugChunk)], testRegistry⟩

/-- The four horizontal edge configurations of a block inside a chunk:
`edgeSpec x z d` holds when `(x, z)` lies on exactly the chunk edge whose
outward direction is `d`, away from the corners. -/
def edgeSpec (x z : Nat) : Direction → Prop
  | .West => x = 0 ∧ 0 < z ∧ z < 15
  | .East => x = 15 ∧ 0 < z ∧ z < 15
  | .North => z = 0 ∧ 0 < x ∧ x < 15
  | .South => z = 15 ∧ 0 < x ∧ x < 15
  | _ => False

/-- The chunk position across a horizontal boundary, as computed by
`check_visible_faces_for_block`. -/
def neighborChunkPos (cp : ChunkPosition) (d : Direction) : ChunkPosition :=
  ⟨cp.x + d.toOffset.1, cp.z + d.toOffset.2.2⟩

/-- The wrapped local coordinate `((n + 16) % 16)` pair used to index the
neighboring chunk across edge direction `d` from local position `(x, z)`. -/
def wrappedCoord (x z : Nat) : Direction → Nat × Nat
  | .West => (15, z)
  | .East => (0, z)
  | .North => (x, 15)
  | .South => (x, 0)
  | _ => (x, z)

/-- Registry whose block type 1 is transparent (like glass). -/
def glassRegistry : BlockRegistry :=
  ⟨[("air", ⟨"air", BlockTextures.emptyTextures, true⟩),
    ("glass", ⟨"glass", BlockTextures.emptyTextures, true⟩)]⟩

/-- A texture registry holding "stone" and "grass", on which
`BlockRegistry::new` succeeds. -/
def fullTextureRegistry : TextureRegistry := ⟨["stone", "grass"]⟩

/-- A chunk holding a single solid block at local (0, 64, 8). -/
def singleEdgeChunk : Chunk :=
  ⟨fun y x z => if y = 64 ∧ x = 0 ∧ z = 8 then 1 else 0⟩

/-- World holding exactly `singleEdgeChunk` at position (0, 0). -/
def singleEdgeWorld : World := ⟨[(⟨0, 0⟩, singleEdgeChunk)], testRegistry⟩

/-- All-zero initial chunk payload buffer, used as the unspecified fresh
buffer contents in concrete storage runs. -/
def zeroBuf : Nat → Nat → GpuBlock := fun _ _ => ⟨0, 0, 0⟩

/-- All-zero initial index buffer. -/
def zeroIdx : Nat → Nat × Nat := fun _ => (0, 0)

/-- A concrete storage state of capacity 2 after one update batch on chunk
position (0, 0): occupy local indices 5 and 7, then remove 7 again. -/
def sampleStorage : GpuChunkStorage :=
  ((GpuChunkStorage.new 2 zeroBuf zeroIdx).update ⟨0, 0⟩
      [⟨5, some ⟨1, 2, 3⟩⟩, ⟨7, some ⟨4, 5, 6⟩⟩, ⟨7, none⟩]).getD
    (GpuChunkStorage.new 2 zeroBuf zeroIdx)

/-- Precondition for cull totality: every block id stored in the culled
chunk and in every chunk of the world is a registered block type. -/
def RegisteredWorld (w : World) (c : Chunk) : Prop :=
  ∀ c' : Chunk, (c' = c ∨ ∃ q, (q, c') ∈ w.chunks) →
    ∀ y x z : Nat, y < 256 → x < 16 → z < 16 →
      c'.blocks y x z < w.block_registry.block_types.length

/-- A chunk filled with the unregistered block id 5. -/
def unregChunk : Chunk := ⟨fun _ _ _ => 5⟩

/-- World holding `unregChunk` with the default (air-only) registry: every
lookup of id 5 panics. -/
def unregWorld : World := ⟨[(⟨0, 0⟩, unregChunk)], BlockRegistry.defaultRegistry⟩

/-- A concrete storage state of capacity 1 whose single slot is taken by
chunk position (0, 0). -/
def oneStorage : GpuChunkStorage :=
  ((GpuChunkStorage.new 1 zeroBuf zeroIdx).update ⟨0, 0⟩ []).getD
    (GpuChunkStorage.new 1 zeroBuf zeroIdx)

/-! ## Basic lemmas about the culling embedding -/

theorem checkDirs_cons_eq_some {w : World} {c : Chunk} {cp : ChunkPosition}
    {id : BlockTypeId} {x y z : Nat} {d : Direction} {ds : List Direction}
    {fs : List VisibleFace} :
    checkDirs w c cp id x y z (d :: ds) = some fs ↔
      ∃ l r, checkDir w c cp id x y z d = some l ∧
        checkDirs w c cp id x y z ds = some r ∧ fs = l ++ r := by
  constructor
  · intro h
    cases hd : checkDir w c cp id x y z d with
    | none => simp [checkDirs, hd] at h
    | some l =>
      cases hds : checkDirs w c cp id x y z ds with
      | none => simp [checkDirs, hd, hds] at h
      | some r =>
        simp only [checkDirs, hd, hds, Option.bind_eq_bind, Option.some_bind,
          pure, Option.some_inj] at h
        exact ⟨l, r, rfl, rfl, h.symm⟩
  · rintro ⟨l, r, hd, hds, rfl⟩
    simp [checkDirs, hd, hds]

theorem checkDir_up_boundary {w : World} {c : Chunk} {cp : ChunkPosition}
    {id : BlockTypeId} {x y z : Nat} (h : 255 ≤ y) :
    checkDir w c cp id x y z .Up = some [⟨(x, y, z), .Up, id⟩] := by
  simp [checkDir, Direction.toOffset, h]

theorem checkDir_down_boundary {w : World} {c : Chunk} {cp : ChunkPosition}
    {id : BlockTypeId} {x y z : Nat} (h : y = 0) :
    checkDir w c cp id x y z .Down = some [⟨(x, y, z), .Down, id⟩] := by
  simp [checkDir, Direction.toOffset, h]

theorem checkVisibleFacesForBlock_solid {w : World} {c : Chunk}
    {cp : ChunkPosition} {id : BlockTypeId} {x y z : Nat}
    (hid : id ≠ 0) (hop : w.block_registry.isBlockTransparent id = some false) :
    checkVisibleFacesForBlock id w c cp (x, y, z) =
      checkDirs w c cp id x y z Direction.ALL := by
  simp [checkVisibleFacesForBlock, hid, hop]

/-! ### Interior-neighbor characterizations of the direction loop body -/

theorem checkDir_up_interior {w : World} {c : Chunk} {cp : ChunkPosition}
    {id : BlockTypeId} {x y z : Nat} (hy : y < 255) (hx : x < 16) (hz : z < 16) :
    checkDir w c cp id x y z .Up =
      (w.block_registry.isBlockTransparent (c.blocks (y + 1) x z)).map
        (fun t => if t then [⟨(x, y, z), .Up, id⟩] else []) := by
  simp only [checkDir, Direction.toOffset]
  rw [if_neg (by simp; omega), if_neg (by omega)]
  rw [show ((y : Int) + 1).toNat = y + 1 by omega,
    show ((x : Int) + 0).toNat = x by omega,
    show ((z : Int) + 0).toNat = z by omega]

theorem checkDir_down_interior {w : World} {c : Chunk} {cp : ChunkPosition}
    {id : BlockTypeId} {x y z : Nat} (hy : 0 < y) (hx : x < 16) (hz : z < 16) :
    checkDir w c cp id x y z .Down =
      (w.block_registry.isBlockTransparent (c.blocks (y - 1) x z)).map
        (fun t => if t then [⟨(x, y, z), .Down, id⟩] else []) := by
  simp only [checkDir, Direction.toOffset]
  rw [if_neg (by simp; omega), if_neg (by omega)]
  rw [show ((y : Int) + -1).toNat = y - 1 by omega,
    show ((x : Int) + 0).toNat = x by omega,
    show ((z : Int) + 0).toNat = z by omega]

theorem checkDir_north_interior {w : World} {c : Chunk} {cp : ChunkPosition}
    {id : BlockTypeId} {x y z : Nat} (hx : x < 16) (hz0 : 0 < z) (hz : z < 16) :
    checkDir w c cp id x y z .North =
      (w.block_registry.isBlockTransparent (c.blocks y x (z - 1))).map
        (fun t => if t then [⟨(x, y, z), .North, id⟩] else []) := by
  simp only [checkDir, Direction.toOffset]
  rw [if_neg (by simp), if_neg (by omega)]
  rw [show ((y : Int) + 0).toNat = y by omega,
    show ((x : Int) + 0).toNat = x by omega,
    show ((z : Int) + -1).toNat = z - 1 by omega]

theorem checkDir_south_interior {w : World} {c : Chunk} {cp : ChunkPosition}
    {id : BlockTypeId} {x y z : Nat} (hx : x < 16) (hz : z < 15) :
    checkDir w c cp id x y z .South =
      (w.block_registry.isBlockTransparent (c.blocks y x (z + 1))).map
        (fun t => if t then [⟨(x, y, z), .South, id⟩] else []) := by
  simp only [checkDir, Direction.toOffset]
  rw [if_neg (by simp), if_neg (by omega)]
  rw [show ((y : Int) + 0).toNat = y by omega,
    show ((x : Int) + 0).toNat = x by omega,
    show ((z : Int) + 1).toNat = z + 1 by omega]

theorem checkDir_east_interior {w : World} {c : Chunk} {cp : ChunkPosition}
    {id : BlockTypeId} {x y z : Nat} (hx : x < 15) (hz : z < 16) :
    checkDir w c cp id x y z .East =
      (w.block_registry.isBlockTransparent (c.blocks y (x + 1) z)).map
        (fun t => if t then [⟨(x, y, z), .East, id⟩] else []) := by
  simp only [checkDir, Direction.toOffset]
  rw [if_neg (by simp), if_neg (by omega)]
  rw [show ((y : Int) + 0).toNat = y by omega,
    show ((x : Int) + 1).toNat = x + 1 by omega,
    show ((z : Int) + 0).toNat = z by omega]

theorem checkDir_west_interior {w : World} {c : Chunk} {cp : ChunkPosition}
    {id : BlockTypeId} {x y z : Nat} (hx0 : 0 < x) (hx : x < 16) (hz : z < 16) :
    checkDir w c cp id x y z .West =
      (w.block_registry.isBlockTransparent (c.blocks y (x - 1) z)).map
        (fun t => if t then [⟨(x, y, z), .West, id⟩] else []) := by
  simp only [checkDir, Direction.toOffset]
  rw [if_neg (by simp), if_neg (by omega)]
  rw [show ((y : Int) + 0).toNat = y by omega,
    show ((x : Int) + -1).toNat = x - 1 by omega,
    show ((z : Int) + 0).toNat = z by omega]

/-! ### Chunk-boundary characterizations of the direction loop body -/

theorem checkDir_west_edge {w : World} {c : Chunk} {cp : ChunkPosition}
    {id : BlockTypeId} {x y z : Nat} (hx : x = 0) (hz : z < 16) :
    checkDir w c cp id x y z .West =
      match w.getChunk (neighborChunkPos cp .West) with
      | none => some []
      | some nc =>
        (w.block_registry.isBlockTransparent (nc.blocks y 15 z)).map
          (fun t => if t then [⟨(x, y, z), .West, id⟩] else []) := by
  subst hx
  simp only [checkDir, Direction.toOffset, neighborChunkPos]
  rw [if_neg (by simp), if_pos (by left; omega)]
  rw [show (((0 : Nat) : Int) + -1 + 16) % 16 = 15 by decide,
    show (((z : Nat) : Int) + 0 + 16) % 16 = z by omega]
  rfl

theorem checkDir_east_edge {w : World} {c : Chunk} {cp : ChunkPosition}
    {id : BlockTypeId} {x y z : Nat} (hx : x = 15) (hz : z < 16) :
    checkDir w c cp id x y z .East =
      match w.getChunk (neighborChunkPos cp .East) with
      | none => some []
      | some nc =>
        (w.block_registry.isBlockTransparent (nc.blocks y 0 z)).map
          (fun t => if t then [⟨(x, y, z), .East, id⟩] else []) := by
  subst hx
  simp only [checkDir, Direction.toOffset, neighborChunkPos]
  rw [if_neg (by simp), if_pos (by right; left; omega)]
  rw [show (((15 : Nat) : Int) + 1 + 16) % 16 = 0 by decide,
    show (((z : Nat) : Int) + 0 + 16) % 16 = z by omega]
  rfl

theorem checkDir_north_edge {w : World} {c : Chunk} {cp : ChunkPosition}
    {id : BlockTypeId} {x y z : Nat} (hz : z = 0) (hx : x < 16) :
    checkDir w c cp id x y z .North =
      match w.getChunk (neighborChunkPos cp .North) with
      | none => some []
      | some nc =>
        (w.block_registry.isBlockTransparent (nc.blocks y x 15)).map
          (fun t => if t then [⟨(x, y, z), .North, id⟩] else []) := by
  subst hz
  simp only [checkDir, Direction.toOffset, neighborChunkPos]
  rw [if_neg (by simp), if_pos (by right; right; left; omega)]
  rw [show (((x : Nat) : Int) + 0 + 16) % 16 = x by omega,
    show (((0 : Nat) : Int) + -1 + 16) % 16 = 15 by decide]
  rfl

theorem checkDir_south_edge {w : World} {c : Chunk} {cp : ChunkPosition}
    {id : BlockTypeId} {x y z : Nat} (hz : z = 15) (hx : x < 16) :
    checkDir w c cp id x y z .South =
      match w.getChunk (neighborChunkPos cp .South) with
      | none => some []
      | some nc =>
        (w.block_registry.isBlockTransparent (nc.blocks y x 0)).map
          (fun t => if t then [⟨(x, y, z), .South, id⟩] else []) := by
  subst hz
  simp only [checkDir, Direction.toOffset, neighborChunkPos]
  rw [if_neg (by simp), if_pos (by right; right; right; omega)]
  rw [show (((x : Nat) : Int) + 0 + 16) % 16 = x by omega,
    show (((15 : Nat) : Int) + 1 + 16) % 16 = 0 by decide]
  rfl

/-! ### Assembling whole-chunk culls from per-block results -/

theorem check_air {w : World} {c : Chunk} {cp : ChunkPosition}
    {bpos : Nat × Nat × Nat} :
    checkVisibleFacesForBlock 0 w c cp bpos = some [] := by
  simp [checkVisibleFacesForBlock]

theorem cullZ_of_forall (w : World) (c : Chunk) (p : ChunkPosition)
    (y x : Nat) (g : Nat → List VisibleFace) :
    ∀ l : List Nat,
      (∀ z ∈ l, checkVisibleFacesForBlock (c.blocks y x z) w c p (x, y, z) = some (g z)) →
      cullZ w c p y x l = some (l.flatMap g)
  | [], _ => rfl
  | z :: zs, h => by
    have hz := h z (by simp)
    have hzs := cullZ_of_forall w c p y x g zs (fun z' hz' => h z' (by simp [hz']))
    simp [cullZ, hz, hzs]

theorem cullX_of_forall (w : World) (c : Chunk) (p : ChunkPosition)
    (y : Nat) (g : Nat → List VisibleFace) :
    ∀ l : List Nat,
      (∀ x ∈ l, cullZ w c p y x (List.range 16) = some (g x)) →
      cullX w c p y l = some (l.flatMap g)
  | [], _ => rfl
  | x :: xs, h => by
    have hx := h x (by simp)
    have hxs := cullX_of_forall w c p y g xs (fun x' hx' => h x' (by simp [hx']))
    simp [cullX, hx, hxs]

theorem cullY_of_forall (w : World) (c : Chunk) (p : ChunkPosition)
    (g : Nat → List VisibleFace) :
    ∀ l : List Nat,
      (∀ y ∈ l, cullX w c p y (List.range 16) = some (g y)) →
      cullY w c p l = some (l.flatMap g)
  | [], _ => rfl
  | y :: ys, h => by
    have hy := h y (by simp)
    have hys := cullY_of_forall w c p g ys (fun y' hy' => h y' (by simp [hy']))
    simp [cullY, hy, hys]

/-! ### Per-block face lists in the slab world -/

theorem slabWorld_getChunk_ne {p : ChunkPosition} (h : p ≠ ⟨0, 0⟩) :
    slabWorld.getChunk p = none := by
  have : decide ((⟨0, 0⟩ : ChunkPosition) = p) = false := by
    simpa using fun he => h he.symm
  simp [slabWorld, World.getChunk, List.find?, this]

theorem slabChunk_blocks_solid {y x z : Nat} (h : y < 64) :
    slabChunk.blocks y x z = 1 := by
  simp only [slabChunk]
  rw [if_pos h]

theorem slabChunk_blocks_air {y x z : Nat} (h : 64 ≤ y) :
    slabChunk.blocks y x z = 0 := by
  simp only [slabChunk]
  rw [if_neg (by omega)]

theorem slab_block_mid {x y z : Nat} (hy0 : 0 < y) (hy : y < 63)
    (hx : x < 16) (hz : z < 16) :
    checkVisibleFacesForBlock 1 slabWorld slabChunk ⟨0, 0⟩ (x, y, z) = some [] := by
  have hup : checkDir slabWorld slabChunk ⟨0, 0⟩ 1 x y z .Up = some [] := by
    rw [checkDir_up_interior (by omega) hx hz, slabChunk_blocks_solid (by omega)]
    rfl
  have hdown : checkDir slabWorld slabChunk ⟨0, 0⟩ 1 x y z .Down = some [] := by
    rw [checkDir_down_interior hy0 hx hz, slabChunk_blocks_solid (by omega)]
    rfl
  have hnorth : checkDir slabWorld slabChunk ⟨0, 0⟩ 1 x y z .North = some [] := by
    rcases Nat.eq_zero_or_pos z with h0 | h0
    · rw [checkDir_north_edge h0 hx, slabWorld_getChunk_ne (by decide)]
    · rw [checkDir_north_interior hx h0 hz, slabChunk_blocks_solid (by omega)]
      rfl
  have hsouth : checkDir slabWorld slabChunk ⟨0, 0⟩ 1 x y z .South = some [] := by
    rcases eq_or_lt_of_le (Nat.lt_succ_iff.mp hz) with h0 | h0
    · rw [checkDir_south_edge h0 hx, slabWorld_getChunk_ne (by decide)]
    · rw [checkDir_south_interior hx (by omega), slabChunk_blocks_solid (by omega)]
      rfl
  have heast : checkDir slabWorld slabChunk ⟨0, 0⟩ 1 x y z .East = some [] := by
    rcases eq_or_lt_of_le (Nat.lt_succ_iff.mp hx) with h0 | h0
    · rw [checkDir_east_edge h0 hz, slabWorld_getChunk_ne (by decide)]
    · rw [checkDir_east_interior (by omega) hz, slabChunk_blocks_solid (by omega)]
      rfl
  have hwest : checkDir slabWorld slabChunk ⟨0, 0⟩ 1 x y z .West = some [] := by
    rcases Nat.eq_zero_or_pos x with h0 | h0
    · rw [checkDir_west_edge h0 hz, slabWorld_getChunk_ne (by decide)]
    · rw [checkDir_west_interior h0 hx hz, slabChunk_blocks_solid (by omega)]
      rfl
  rw [checkVisibleFacesForBlock_solid (by decide)
    (show slabWorld.block_registry.isBlockTransparent 1 = some false from rfl)]
  simp [Direction.ALL, checkDirs, hup, hdown, hnorth, hsouth, heast, hwest]

theorem slab_block_top {x z : Nat} (hx : x < 16) (hz : z < 16) :
    checkVisibleFacesForBlock 1 slabWorld slabChunk ⟨0, 0⟩ (x, 63, z)
      = some [⟨(x, 63, z), .Up, 1⟩] := by
  have hup : checkDir slabWorld slabChunk ⟨0, 0⟩ 1 x 63 z .Up
      = some [⟨(x, 63, z), .Up, 1⟩] := by
    rw [checkDir_up_interior (by omega) hx hz, slabChunk_blocks_air (by omega)]
    rfl
  have hdown : checkDir slabWorld slabChunk ⟨0, 0⟩ 1 x 63 z .Down = some [] := by
    rw [checkDir_down_interior (by omega) hx hz, slabChunk_blocks_solid (by omega)]
    rfl
  have hnorth : checkDir slabWorld slabChunk ⟨0, 0⟩ 1 x 63 z .North = some [] := by
    rcases Nat.eq_zero_or_pos z with h0 | h0
    · rw [checkDir_north_edge h0 hx, slabWorld_getChunk_ne (by decide)]
    · rw [checkDir_north_interior hx h0 hz, slabChunk_blocks_solid (by omega)]
      rfl
  have hsouth : checkDir slabWorld slabChunk ⟨0, 0⟩ 1 x 63 z .South = some [] := by
    rcases eq_or_lt_of_le (Nat.lt_succ_iff.mp hz) with h0 | h0
    · rw [checkDir_south_edge h0 hx, slabWorld_getChunk_ne (by decide)]
    · rw [checkDir_south_interior hx (by omega), slabChunk_blocks_solid (by omega)]
      rfl
  have heast : checkDir slabWorld slabChunk ⟨0, 0⟩ 1 x 63 z .East = some [] := by
    rcases eq_or_lt_of_le (Nat.lt_succ_iff.mp hx) with h0 | h0
    · rw [checkDir_east_edge h0 hz, slabWorld_getChunk_ne (by decide)]
    · rw [checkDir_east_interior (by omega) hz, slabChunk_blocks_solid (by omega)]
      rfl
  have hwest : checkDir slabWorld slabChunk ⟨0, 0⟩ 1 x 63 z .West = some [] := by
    rcases Nat.eq_zero_or_pos x with h0 | h0
    · rw [checkDir_west_edge h0 hz, slabWorld_getChunk_ne (by decide)]
    · rw [checkDir_west_interior h0 hx hz, slabChunk_blocks_solid (by omega)]
      rfl
  rw [checkVisibleFacesForBlock_solid (by decide)
    (show slabWorld.block_registry.isBlockTransparent 1 = some false from rfl)]
  simp [Direction.ALL, checkDirs, hup, hdown, hnorth, hsouth, heast, hwest]

theorem slab_block_bottom {x z : Nat} (hx : x < 16) (hz : z < 16) :
    checkVisibleFacesForBlock 1 slabWorld slabChunk ⟨0, 0⟩ (x, 0, z)
      = some [⟨(x, 0, z), .Down, 1⟩] := by
  have hup : checkDir slabWorld slabChunk ⟨0, 0⟩ 1 x 0 z .Up = some [] := by
    rw [checkDir_up_interior (by omega) hx hz, slabChunk_blocks_solid (by omega)]
    rfl
  have hdown : checkDir slabWorld slabChunk ⟨0, 0⟩ 1 x 0 z .Down
      = some [⟨(x, 0, z), .Down, 1⟩] := checkDir_down_boundary rfl
  have hnorth : checkDir slabWorld slabChunk ⟨0, 0⟩ 1 x 0 z .North = some [] := by
    rcases Nat.eq_zero_or_pos z with h0 | h0
    · rw [checkDir_north_edge h0 hx, slabWorld_getChunk_ne (by decide)]
    · rw [checkDir_north_interior hx h0 hz, slabChunk_blocks_solid (by omega)]
      rfl
  have hsouth : checkDir slabWorld slabChunk ⟨0, 0⟩ 1 x 0 z .South = some [] := by
    rcases eq_or_lt_of_le (Nat.lt_succ_iff.mp hz) with h0 | h0
    · rw [checkDir_south_edge h0 hx, slabWorld_getChunk_ne (by decide)]
    · rw [checkDir_south_interior hx (by omega), slabChunk_blocks_solid (by omega)]
      rfl
  have heast : checkDir slabWorld slabChunk ⟨0, 0⟩ 1 x 0 z .East = some [] := by
    rcases eq_or_lt_of_le (Nat.lt_succ_iff.mp hx) with h0 | h0
    · rw [checkDir_east_edge h0 hz, slabWorld_getChunk_ne (by decide)]
    · rw [checkDir_east_interior (by omega) hz, slabChunk_blocks_solid (by omega)]
      rfl
  have hwest : checkDir slabWorld slabChunk ⟨0, 0⟩ 1 x 0 z .West = some [] := by
    rcases Nat.eq_zero_or_pos x with h0 | h0
    · rw [checkDir_west_edge h0 hz, slabWorld_getChunk_ne (by decide)]
    · rw [checkDir_west_interior h0 hx hz, slabChunk_blocks_solid (by omega)]
      rfl
  rw [checkVisibleFacesForBlock_solid (by decide)
    (show slabWorld.block_registry.isBlockTransparent 1 = some false from rfl)]
  simp [Direction.ALL, checkDirs, hup, hdown, hnorth, hsouth, heast, hwest]

/-! ### Layer-by-layer culling of the slab world -/

theorem slab_row_mid {y x : Nat} (hy0 : 0 < y) (hy : y < 63) (hx : x < 16) :
    cullZ slabWorld slabChunk ⟨0, 0⟩ y x (List.range 16) = some [] := by
  have h := cullZ_of_forall slabWorld slabChunk ⟨0, 0⟩ y x
    (fun _ => ([] : List VisibleFace)) (List.range 16)
    (fun z hz => by
      rw [slabChunk_blocks_solid (show y < 64 by omega)]
      exact slab_block_mid hy0 hy hx (List.mem_range.mp hz))
  simpa using h

theorem slab_row_air {y x : Nat} (hy : 64 ≤ y) :
    cullZ slabWorld slabChunk ⟨0, 0⟩ y x (List.range 16) = some [] := by
  have h := cullZ_of_forall slabWorld slabChunk ⟨0, 0⟩ y x
    (fun _ => ([] : List VisibleFace)) (List.range 16)
    (fun z _ => by
      rw [slabChunk_blocks_air hy]
      exact check_air)
  simpa using h

theorem slab_row_top {x : Nat} (hx : x < 16) :
    cullZ slabWorld slabChunk ⟨0, 0⟩ 63 x (List.range 16)
      = some ((List.range 16).flatMap (fun z => [⟨(x, 63, z), .Up, 1⟩])) :=
  cullZ_of_forall slabWorld slabChunk ⟨0, 0⟩ 63 x
    (fun z => [⟨(x, 63, z), .Up, 1⟩]) (List.range 16)
    (fun z hz => by
      rw [slabChunk_blocks_solid (show (63 : Nat) < 64 by omega)]
      exact slab_block_top hx (List.mem_range.mp hz))

theorem slab_row_bottom {x : Nat} (hx : x < 16) :
    cullZ slabWorld slabChunk ⟨0, 0⟩ 0 x (List.range 16)
      = some ((List.range 16).flatMap (fun z => [⟨(x, 0, z), .Down, 1⟩])) :=
  cullZ_of_forall slabWorld slabChunk ⟨0, 0⟩ 0 x
    (fun z => [⟨(x, 0, z), .Down, 1⟩]) (List.range 16)
    (fun z hz => by
      rw [slabChunk_blocks_solid (show (0 : Nat) < 64 by omega)]
      exact slab_block_bottom hx (List.mem_range.mp hz))

theorem slab_layer_empty {y : Nat} (hy : (0 < y ∧ y < 63) ∨ 64 ≤ y) :
    cullX slabWorld slabChunk ⟨0, 0⟩ y (List.range 16) = some [] := by
  have h := cullX_of_forall slabWorld slabChunk ⟨0, 0⟩ y
    (fun _ => ([] : List VisibleFace)) (List.range 16)
    (fun x hx => by
      rcases hy with ⟨hy0, hy1⟩ | hy2
      · exact slab_row_mid hy0 hy1 (List.mem_range.mp hx)
      · exact slab_row_air hy2)
  simpa using h

theorem slab_layer_top :
    cullX slabWorld slabChunk ⟨0, 0⟩ 63 (List.range 16)
      = some ((List.range 16).flatMap
          (fun x => (List.range 16).flatMap (fun z => [⟨(x, 63, z), .Up, 1⟩]))) :=
  cullX_of_forall slabWorld slabChunk ⟨0, 0⟩ 63
    (fun x => (List.range 16).flatMap (fun z => [⟨(x, 63, z), .Up, 1⟩]))
    (List.range 16)
    (fun x hx => slab_row_top (List.mem_range.mp hx))

theorem slab_layer_bottom :
    cullX slabWorld slabChunk ⟨0, 0⟩ 0 (List.range 16)
      = some ((List.range 16).flatMap
          (fun x => (List.range 16).flatMap (fun z => [⟨(x, 0, z), .Down, 1⟩]))) :=
  cullX_of_forall slabWorld slabChunk ⟨0, 0⟩ 0
    (fun x => (List.range 16).flatMap (fun z => [⟨(x, 0, z), .Down, 1⟩]))
    (List.range 16)
    (fun x hx => slab_row_bottom (List.mem_range.mp hx))

theorem slab_cull :
    cullFacesForChunk slabWorld slabChunk ⟨0, 0⟩
      = some ((List.range 256).flatMap (fun y =>
          if y = 0 then
            (List.range 16).flatMap
              (fun x => (List.range 16).flatMap (fun z => [⟨(x, 0, z), .Down, 1⟩]))
          else if y = 63 then
            (List.range 16).flatMap
              (fun x => (List.range 16).flatMap (fun z => [⟨(x, 63, z), .Up, 1⟩]))
          else [])) := by
  apply cullY_of_forall
  intro y hy
  have h256 := List.mem_range.mp hy
  by_cases h0 : y = 0
  · subst h0
    simpa using slab_layer_bottom
  · by_cases h63 : y = 63
    · subst h63
      simpa using slab_layer_top
    · rw [if_neg h0, if_neg h63]
      rcases Nat.lt_or_ge y 64 with h64 | h64
      · exact slab_layer_empty (Or.inl ⟨by omega, by omega⟩)
      · exact slab_layer_empty (Or.inr h64)

/-! ### Layer-by-layer culling of the dug world -/

theorem dugWorld_getChunk_ne {p : ChunkPosition} (h : p ≠ ⟨0, 0⟩) :
    dugWorld.getChunk p = none := by
  have : decide ((⟨0, 0⟩ : ChunkPosition) = p) = false := by
    simpa using fun he => h he.symm
  simp [dugWorld, World.getChunk, List.find?, this]

theorem dugChunk_blocks_solid {y x z : Nat} (h : y < 64)
    (hh : ¬(y = 63 ∧ x = 1 ∧ z = 1)) : dugChunk.blocks y x z = 1 := by
  simp only [dugChunk]
  rw [if_neg hh, if_pos h]

theorem dugChunk_blocks_air {y x z : Nat} (h : 64 ≤ y) :
    dugChunk.blocks y x z = 0 := by
  simp only [dugChunk]
  rw [if_neg (by omega), if_neg (by omega)]

theorem dug_block_mid {x y z : Nat} (hy0 : 0 < y) (hy : y < 62)
    (hx : x < 16) (hz : z < 16) :
    checkVisibleFacesForBlock 1 dugWorld dugChunk ⟨0, 0⟩ (x, y, z) = some [] := by
  have hup : checkDir dugWorld dugChunk ⟨0, 0⟩ 1 x y z .Up = some [] := by
    rw [checkDir_up_interior (by omega) hx hz,
      dugChunk_blocks_solid (by omega) (by omega)]
    rfl
  have hdown : checkDir dugWorld dugChunk ⟨0, 0⟩ 1 x y z .Down = some [] := by
    rw [checkDir_down_interior hy0 hx hz,
      dugChunk_blocks_solid (by omega) (by omega)]
    rfl
  have hnorth : checkDir dugWorld dugChunk ⟨0, 0⟩ 1 x y z .North = some [] := by
    rcases Nat.eq_zero_or_pos z with h0 | h0
    · rw [checkDir_north_edge h0 hx, dugWorld_getChunk_ne (by decide)]
    · rw [checkDir_north_interior hx h0 hz,
        dugChunk_blocks_solid (by omega) (by omega)]
      rfl
  have hsouth : checkDir dugWorld dugChunk ⟨0, 0⟩ 1 x y z .South = some [] := by
    rcases eq_or_lt_of_le (Nat.lt_succ_iff.mp hz) with h0 | h0
    · rw [checkDir_south_edge h0 hx, dugWorld_getChunk_ne (by decide)]
    · rw [checkDir_south_interior hx (by omega),
        dugChunk_blocks_solid (by omega) (by omega)]
      rfl
  have heast : checkDir dugWorld dugChunk ⟨0, 0⟩ 1 x y z .East = some [] := by
    rcases eq_or_lt_of_le (Nat.lt_succ_iff.mp hx) with h0 | h0
    · rw [checkDir_east_edge h0 hz, dugWorld_getChunk_ne (by decide)]
    · rw [checkDir_east_interior (by omega) hz,
        dugChunk_blocks_solid (by omega) (by omega)]
      rfl
  have hwest : checkDir dugWorld dugChunk ⟨0, 0⟩ 1 x y z .West = some [] := by
    rcases Nat.eq_zero_or_pos x with h0 | h0
    · rw [checkDir_west_edge h0 hz, dugWorld_getChunk_ne (by decide)]
    · rw [checkDir_west_interior h0 hx hz,
        dugChunk_blocks_solid (by omega) (by omega)]
      rfl
  rw [checkVisibleFacesForBlock_solid (by decide)
    (show dugWorld.block_registry.isBlockTransparent 1 = some false from rfl)]
  simp [Direction.ALL, checkDirs, hup, hdown, hnorth, hsouth, heast, hwest]

theorem dug_block_bottom {x z : Nat} (hx : x < 16) (hz : z < 16) :
    checkVisibleFacesForBlock 1 dugWorld dugChunk ⟨0, 0⟩ (x, 0, z)
      = some [⟨(x, 0, z), .Down, 1⟩] := by
  have hup : checkDir dugWorld dugChunk ⟨0, 0⟩ 1 x 0 z .Up = some [] := by
    rw [checkDir_up_interior (by omega) hx hz,
      dugChunk_blocks_solid (by omega) (by omega)]
    rfl
  have hdown : checkDir dugWorld dugChunk ⟨0, 0⟩ 1 x 0 z .Down
      = some [⟨(x, 0, z), .Down, 1⟩] := checkDir_down_boundary rfl
  have hnorth : checkDir dugWorld dugChunk ⟨0, 0⟩ 1 x 0 z .North = some [] := by
    rcases Nat.eq_zero_or_pos z with h0 | h0
    · rw [checkDir_north_edge h0 hx, dugWorld_getChunk_ne (by decide)]
    · rw [checkDir_north_interior hx h0 hz,
        dugChunk_blocks_solid (by omega) (by omega)]
      rfl
  have hsouth : checkDir dugWorld dugChunk ⟨0, 0⟩ 1 x 0 z .South = some [] := by
    rcases eq_or_lt_of_le (Nat.lt_succ_iff.mp hz) with h0 | h0
    · rw [checkDir_south_edge h0 hx, dugWorld_getChunk_ne (by decide)]
    · rw [checkDir_south_interior hx (by omega),
        dugChunk_blocks_solid (by omega) (by omega)]
      rfl
  have heast : checkDir dugWorld dugChunk ⟨0, 0⟩ 1 x 0 z .East = some [] := by
    rcases eq_or_lt_of_le (Nat.lt_succ_iff.mp hx) with h0 | h0
    · rw [checkDir_east_edge h0 hz, dugWorld_getChunk_ne (by decide)]
    · rw [checkDir_east_interior (by omega) hz,
        dugChunk_blocks_solid (by omega) (by omega)]
      rfl
  have hwest : checkDir dugWorld dugChunk ⟨0, 0⟩ 1 x 0 z .West = some [] := by
    rcases Nat.eq_zero_or_pos x with h0 | h0
    · rw [checkDir_west_edge h0 hz, dugWorld_getChunk_ne (by decide)]
    · rw [checkDir_west_interior h0 hx hz,
        dugChunk_blocks_solid (by omega) (by omega)]
      rfl
  rw [checkVisibleFacesForBlock_solid (by decide)
    (show dugWorld.block_registry.isBlockTransparent 1 = some false from rfl)]
  simp [Direction.ALL, checkDirs, hup, hdown, hnorth, hsouth, heast, hwest]

theorem dug_block_62 {x z : Nat} (hx : x < 16) (hz : z < 16)
    (hne : ¬(x = 1 ∧ z = 1)) :
    checkVisibleFacesForBlock 1 dugWorld dugChunk ⟨0, 0⟩ (x, 62, z) = some [] := by
  have hup : checkDir dugWorld dugChunk ⟨0, 0⟩ 1 x 62 z .Up = some [] := by
    rw [checkDir_up_interior (by omega) hx hz,
      dugChunk_blocks_solid (by omega) (by simpa using hne)]
    rfl
  have hdown : checkDir dugWorld dugChunk ⟨0, 0⟩ 1 x 62 z .Down = some [] := by
    rw [checkDir_down_interior (by omega) hx hz,
      dugChunk_blocks_solid (by omega) (by omega)]
    rfl
  have hnorth : checkDir dugWorld dugChunk ⟨0, 0⟩ 1 x 62 z .North = some [] := by
    rcases Nat.eq_zero_or_pos z with h0 | h0
    · rw [checkDir_north_edge h0 hx, dugWorld_getChunk_ne (by decide)]
    · rw [checkDir_north_interior hx h0 hz,
        dugChunk_blocks_solid (by omega) (by omega)]
      rfl
  have hsouth : checkDir dugWorld dugChunk ⟨0, 0⟩ 1 x 62 z .South = some [] := by
    rcases eq_or_lt_of_le (Nat.lt_succ_iff.mp hz) with h0 | h0
    · rw [checkDir_south_edge h0 hx, dugWorld_getChunk_ne (by decide)]
    · rw [checkDir_south_interior hx (by omega),
        dugChunk_blocks_solid (by omega) (by omega)]
      rfl
  have heast : checkDir dugWorld dugChunk ⟨0, 0⟩ 1 x 62 z .East = some [] := by
    rcases eq_or_lt_of_le (Nat.lt_succ_iff.mp hx) with h0 | h0
    · rw [checkDir_east_edge h0 hz, dugWorld_getChunk_ne (by decide)]
    · rw [checkDir_east_interior (by omega) hz,
        dugChunk_blocks_solid (by omega) (by omega)]
      rfl
  have hwest : checkDir dugWorld dugChunk ⟨0, 0⟩ 1 x 62 z .West = some [] := by
    rcases Nat.eq_zero_or_pos x with h0 | h0
    · rw [checkDir_west_edge h0 hz, dugWorld_getChunk_ne (by decide)]
    · rw [checkDir_west_interior h0 hx hz,
        dugChunk_blocks_solid (by omega) (by omega)]
      rfl
  rw [checkVisibleFacesForBlock_solid (by decide)
    (show dugWorld.block_registry.isBlockTransparent 1 = some false from rfl)]
  simp [Direction.ALL, checkDirs, hup, hdown, hnorth, hsouth, heast, hwest]

theorem dug_block_top {x z : Nat} (hx : x < 16) (hz : z < 16)
    (h11 : ¬(x = 1 ∧ z = 1)) (h01 : ¬(x = 0 ∧ z = 1)) (h21 : ¬(x = 2 ∧ z = 1))
    (h10 : ¬(x = 1 ∧ z = 0)) (h12 : ¬(x = 1 ∧ z = 2)) :
    checkVisibleFacesForBlock 1 dugWorld dugChunk ⟨0, 0⟩ (x, 63, z)
      = some [⟨(x, 63, z), .Up, 1⟩] := by
  have hup : checkDir dugWorld dugChunk ⟨0, 0⟩ 1 x 63 z .Up
      = some [⟨(x, 63, z), .Up, 1⟩] := by
    rw [checkDir_up_interior (by omega) hx hz, dugChunk_blocks_air (by omega)]
    rfl
  have hdown : checkDir dugWorld dugChunk ⟨0, 0⟩ 1 x 63 z .Down = some [] := by
    rw [checkDir_down_interior (by omega) hx hz,
      dugChunk_blocks_solid (by omega) (by omega)]
    rfl
  have hnorth : checkDir dugWorld dugChunk ⟨0, 0⟩ 1 x 63 z .North = some [] := by
    rcases Nat.eq_zero_or_pos z with h0 | h0
    · rw [checkDir_north_edge h0 hx, dugWorld_getChunk_ne (by decide)]
    · rw [checkDir_north_interior hx h0 hz,
        dugChunk_blocks_solid (by omega) (by omega)]
      rfl
  have hsouth : checkDir dugWorld dugChunk ⟨0, 0⟩ 1 x 63 z .South = some [] := by
    rcases eq_or_lt_of_le (Nat.lt_succ_iff.mp hz) with h0 | h0
    · rw [checkDir_south_edge h0 hx, dugWorld_getChunk_ne (by decide)]
    · rw [checkDir_south_interior hx (by omega),
        dugChunk_blocks_solid (by omega) (by omega)]
      rfl
  have heast : checkDir dugWorld dugChunk ⟨0, 0⟩ 1 x 63 z .East = some [] := by
    rcases eq_or_lt_of_le (Nat.lt_succ_iff.mp hx) with h0 | h0
    · rw [checkDir_east_edge h0 hz, dugWorld_getChunk_ne (by decide)]
    · rw [checkDir_east_interior (by omega) hz,
        dugChunk_blocks_solid (by omega) (by omega)]
      rfl
  have hwest : checkDir dugWorld dugChunk ⟨0, 0⟩ 1 x 63 z .West = some [] := by
    rcases Nat.eq_zero_or_pos x with h0 | h0
    · rw [checkDir_west_edge h0 hz, dugWorld_getChunk_ne (by decide)]
    · rw [checkDir_west_interior h0 hx hz,
        dugChunk_blocks_solid (by omega) (by omega)]
      rfl
  rw [checkVisibleFacesForBlock_solid (by decide)
    (show dugWorld.block_registry.isBlockTransparent 1 = some false from rfl)]
  simp [Direction.ALL, checkDirs, hup, hdown, hnorth, hsouth, heast, hwest]

set_option maxRecDepth 40000

theorem dug_hole_block :
    checkVisibleFacesForBlock (dugChunk.blocks 63 1 1) dugWorld dugChunk ⟨0, 0⟩ (1, 63, 1)
      = some [] := by
  rw [show dugChunk.blocks 63 1 1 = 0 from rfl]
  exact check_air

theorem dug_block_62_11 :
    checkVisibleFacesForBlock 1 dugWorld dugChunk ⟨0, 0⟩ (1, 62, 1)
      = some [⟨(1, 62, 1), .Up, 1⟩] := by decide

theorem dug_block_63_01 :
    checkVisibleFacesForBlock 1 dugWorld dugChunk ⟨0, 0⟩ (0, 63, 1)
      = some [⟨(0, 63, 1), .Up, 1⟩, ⟨(0, 63, 1), .East, 1⟩] := by decide

theorem dug_block_63_21 :
    checkVisibleFacesForBlock 1 dugWorld dugChunk ⟨0, 0⟩ (2, 63, 1)
      = some [⟨(2, 63, 1), .Up, 1⟩, ⟨(2, 63, 1), .West, 1⟩] := by decide

theorem dug_block_63_10 :
    checkVisibleFacesForBlock 1 dugWorld dugChunk ⟨0, 0⟩ (1, 63, 0)
      = some [⟨(1, 63, 0), .Up, 1⟩, ⟨(1, 63, 0), .South, 1⟩] := by decide

theorem dug_block_63_12 :
    checkVisibleFacesForBlock 1 dugWorld dugChunk ⟨0, 0⟩ (1, 63, 2)
      = some [⟨(1, 63, 2), .Up, 1⟩, ⟨(1, 63, 2), .North, 1⟩] := by decide

theorem dug_row_mid {y x : Nat} (hy0 : 0 < y) (hy : y < 62) (hx : x < 16) :
    cullZ dugWorld dugChunk ⟨0, 0⟩ y x (List.range 16) = some [] := by
  have h := cullZ_of_forall dugWorld dugChunk ⟨0, 0⟩ y x
    (fun _ => ([] : List VisibleFace)) (List.range 16)
    (fun z hz => by
      rw [dugChunk_blocks_solid (show y < 64 by omega) (by omega)]
      exact dug_block_mid hy0 hy hx (List.mem_range.mp hz))
  simpa using h

theorem dug_row_air {y x : Nat} (hy : 64 ≤ y) :
    cullZ dugWorld dugChunk ⟨0, 0⟩ y x (List.range 16) = some [] := by
  have h := cullZ_of_forall dugWorld dugChunk ⟨0, 0⟩ y x
    (fun _ => ([] : List VisibleFace)) (List.range 16)
    (fun z _ => by
      rw [dugChunk_blocks_air hy]
      exact check_air)
  simpa using h

theorem dug_row_bottom {x : Nat} (hx : x < 16) :
    cullZ dugWorld dugChunk ⟨0, 0⟩ 0 x (List.range 16)
      = some ((List.range 16).flatMap (fun z => [⟨(x, 0, z), .Down, 1⟩])) :=
  cullZ_of_forall dugWorld dugChunk ⟨0, 0⟩ 0 x
    (fun z => [⟨(x, 0, z), .Down, 1⟩]) (List.range 16)
    (fun z hz => by
      rw [dugChunk_blocks_solid (show (0 : Nat) < 64 by omega) (by omega)]
      exact dug_block_bottom hx (List.mem_range.mp hz))

theorem dug_row_62_far {x : Nat} (hx : x < 16) (h1 : x ≠ 1) :
    cullZ dugWorld dugChunk ⟨0, 0⟩ 62 x (List.range 16) = some [] := by
  have h := cullZ_of_forall dugWorld dugChunk ⟨0, 0⟩ 62 x
    (fun _ => ([] : List VisibleFace)) (List.range 16)
    (fun z hz => by
      rw [dugChunk_blocks_solid (show (62 : Nat) < 64 by omega) (by omega)]
      exact dug_block_62 hx (List.mem_range.mp hz) (by omega))
  simpa using h

theorem dug_row_62_1 :
    cullZ dugWorld dugChunk ⟨0, 0⟩ 62 1 (List.range 16)
      = some [⟨(1, 62, 1), .Up, 1⟩] := by
  have h := cullZ_of_forall dugWorld dugChunk ⟨0, 0⟩ 62 1
    (fun z => if z = 1 then [⟨(1, 62, 1), .Up, 1⟩] else []) (List.range 16)
    (fun z hz => by
      rw [dugChunk_blocks_solid (show (62 : Nat) < 64 by omega) (by omega)]
      by_cases h1 : z = 1
      · subst h1
        simpa using dug_block_62_11
      · simpa [h1] using dug_block_62 (by omega) (List.mem_range.mp hz) (by omega))
  exact h.trans (by decide)

theorem dug_row_63_far {x : Nat} (hx : x < 16) (h0 : x ≠ 0) (h1 : x ≠ 1) (h2 : x ≠ 2) :
    cullZ dugWorld dugChunk ⟨0, 0⟩ 63 x (List.range 16)
      = some ((List.range 16).flatMap (fun z => [⟨(x, 63, z), .Up, 1⟩])) :=
  cullZ_of_forall dugWorld dugChunk ⟨0, 0⟩ 63 x
    (fun z => [⟨(x, 63, z), .Up, 1⟩]) (List.range 16)
    (fun z hz => by
      rw [dugChunk_blocks_solid (show (63 : Nat) < 64 by omega) (by omega)]
      exact dug_block_top hx (List.mem_range.mp hz) (by omega) (by omega) (by omega)
        (by omega) (by omega))

theorem dug_row_63_0 :
    cullZ dugWorld dugChunk ⟨0, 0⟩ 63 0 (List.range 16)
      = some ((List.range 16).flatMap (fun z =>
          if z = 1 then [⟨(0, 63, 1), .Up, 1⟩, ⟨(0, 63, 1), .East, 1⟩]
          else [⟨(0, 63, z), .Up, 1⟩])) :=
  cullZ_of_forall dugWorld dugChunk ⟨0, 0⟩ 63 0
    (fun z => if z = 1 then [⟨(0, 63, 1), .Up, 1⟩, ⟨(0, 63, 1), .East, 1⟩]
      else [⟨(0, 63, z), .Up, 1⟩]) (List.range 16)
    (fun z hz => by
      rw [dugChunk_blocks_solid (show (63 : Nat) < 64 by omega) (by omega)]
      by_cases h1 : z = 1
      · subst h1
        simpa using dug_block_63_01
      · simpa [h1] using dug_block_top (by omega) (List.mem_range.mp hz) (by omega)
          (by omega) (by omega) (by omega) (by omega))

theorem dug_row_63_1 :
    cullZ dugWorld dugChunk ⟨0, 0⟩ 63 1 (List.range 16)
      = some ((List.range 16).flatMap (fun z =>
          if z = 0 then [⟨(1, 63, 0), .Up, 1⟩, ⟨(1, 63, 0), .South, 1⟩]
          else if z = 1 then []
          else if z = 2 then [⟨(1, 63, 2), .Up, 1⟩, ⟨(1, 63, 2), .North, 1⟩]
          else [⟨(1, 63, z), .Up, 1⟩])) :=
  cullZ_of_forall dugWorld dugChunk ⟨0, 0⟩ 63 1
    (fun z => if z = 0 then [⟨(1, 63, 0), .Up, 1⟩, ⟨(1, 63, 0), .South, 1⟩]
      else if z = 1 then []
      else if z = 2 then [⟨(1, 63, 2), .Up, 1⟩, ⟨(1, 63, 2), .North, 1⟩]
      else [⟨(1, 63, z), .Up, 1⟩]) (List.range 16)
    (fun z hz => by
      by_cases hz0 : z = 0
      · subst hz0
        rw [dugChunk_blocks_solid (show (63 : Nat) < 64 by omega) (by omega)]
        simpa using dug_block_63_10
      · by_cases hz1 : z = 1
        · subst hz1
          simpa using dug_hole_block
        · by_cases hz2 : z = 2
          · subst hz2
            rw [dugChunk_blocks_solid (show (63 : Nat) < 64 by omega) (by omega)]
            simpa using dug_block_63_12
          · rw [dugChunk_blocks_solid (show (63 : Nat) < 64 by omega) (by omega)]
            simpa [hz0, hz1, hz2] using dug_block_top (by omega) (List.mem_range.mp hz)
              (by omega) (by omega) (by omega) (by omega) (by omega))

theorem dug_row_63_2 :
    cullZ dugWorld dugChunk ⟨0, 0⟩ 63 2 (List.range 16)
      = some ((List.range 16).flatMap (fun z =>
          if z = 1 then [⟨(2, 63, 1), .Up, 1⟩, ⟨(2, 63, 1), .West, 1⟩]
          else [⟨(2, 63, z), .Up, 1⟩])) :=
  cullZ_of_forall dugWorld dugChunk ⟨0, 0⟩ 63 2
    (fun z => if z = 1 then [⟨(2, 63, 1), .Up, 1⟩, ⟨(2, 63, 1), .West, 1⟩]
      else [⟨(2, 63, z), .Up, 1⟩]) (List.range 16)
    (fun z hz => by
      rw [dugChunk_blocks_solid (show (63 : Nat) < 64 by omega) (by omega)]
      by_cases h1 : z = 1
      · subst h1
        simpa using dug_block_63_21
      · simpa [h1] using dug_block_top (by omega) (List.mem_range.mp hz) (by omega)
          (by omega) (by omega) (by omega) (by omega))

theorem dug_layer_empty {y : Nat} (hy : (0 < y ∧ y < 62) ∨ 64 ≤ y) :
    cullX dugWorld dugChunk ⟨0, 0⟩ y (List.range 16) = some [] := by
  have h := cullX_of_forall dugWorld dugChunk ⟨0, 0⟩ y
    (fun _ => ([] : List VisibleFace)) (List.range 16)
    (fun x hx => by
      rcases hy with ⟨hy0, hy1⟩ | hy2
      · exact dug_row_mid hy0 hy1 (List.mem_range.mp hx)
      · exact dug_row_air hy2)
  simpa using h

theorem dug_layer_bottom :
    cullX dugWorld dugChunk ⟨0, 0⟩ 0 (List.range 16)
      = some ((List.range 16).flatMap
          (fun x => (List.range 16).flatMap (fun z => [⟨(x, 0, z), .Down, 1⟩]))) :=
  cullX_of_forall dugWorld dugChunk ⟨0, 0⟩ 0
    (fun x => (List.range 16).flatMap (fun z => [⟨(x, 0, z), .Down, 1⟩]))
    (List.range 16)
    (fun x hx => dug_row_bottom (List.mem_range.mp hx))

theorem dug_layer_62 :
    cullX dugWorld dugChunk ⟨0, 0⟩ 62 (List.range 16)
      = some [⟨(1, 62, 1), .Up, 1⟩] := by
  have h := cullX_of_forall dugWorld dugChunk ⟨0, 0⟩ 62
    (fun x => if x = 1 then [⟨(1, 62, 1), .Up, 1⟩] else []) (List.range 16)
    (fun x hx => by
      by_cases h1 : x = 1
      · subst h1
        simpa using dug_row_62_1
      · simpa [h1] using dug_row_62_far (List.mem_range.mp hx) h1)
  exact h.trans (by decide)

theorem dug_layer_63 :
    cullX dugWorld dugChunk ⟨0, 0⟩ 63 (List.range 16)
      = some ((List.range 16).flatMap (fun x =>
          if x = 0 then (List.range 16).flatMap (fun z =>
            if z = 1 then [⟨(0, 63, 1), .Up, 1⟩, ⟨(0, 63, 1), .East, 1⟩]
            else [⟨(0, 63, z), .Up, 1⟩])
          else if x = 1 then (List.range 16).flatMap (fun z =>
            if z = 0 then [⟨(1, 63, 0), .Up, 1⟩, ⟨(1, 63, 0), .South, 1⟩]
            else if z = 1 then []
            else if z = 2 then [⟨(1, 63, 2), .Up, 1⟩, ⟨(1, 63, 2), .North, 1⟩]
            else [⟨(1, 63, z), .Up, 1⟩])
          else if x = 2 then (List.range 16).flatMap (fun z =>
            if z = 1 then [⟨(2, 63, 1), .Up, 1⟩, ⟨(2, 63, 1), .West, 1⟩]
            else [⟨(2, 63, z), .Up, 1⟩])
          else (List.range 16).flatMap (fun z => [⟨(x, 63, z), .Up, 1⟩]))) := by
  apply cullX_of_forall
  intro x hx
  by_cases h0 : x = 0
  · subst h0
    simpa using dug_row_63_0
  · by_cases h1 : x = 1
    · subst h1
      simpa using dug_row_63_1
    · by_cases h2 : x = 2
      · subst h2
        simpa using dug_row_63_2
      · simpa [h0, h1, h2] using dug_row_63_far (List.mem_range.mp hx) h0 h1 h2

theorem dug_cull :
    cullFacesForChunk dugWorld dugChunk ⟨0, 0⟩
      = some ((List.range 256).flatMap (fun y =>
          if y = 0 then
            (List.range 16).flatMap
              (fun x => (List.range 16).flatMap (fun z => [⟨(x, 0, z), .Down, 1⟩]))
          else if y = 62 then [⟨(1, 62, 1), .Up, 1⟩]
          else if y = 63 then
            (List.range 16).flatMap (fun x =>
              if x = 0 then (List.range 16).flatMap (fun z =>
                if z = 1 then [⟨(0, 63, 1), .Up, 1⟩, ⟨(0, 63, 1), .East, 1⟩]
                else [⟨(0, 63, z), .Up, 1⟩])
              else if x = 1 then (List.range 16).flatMap (fun z =>
                if z = 0 then [⟨(1, 63, 0), .Up, 1⟩, ⟨(1, 63, 0), .South, 1⟩]
                else if z = 1 then []
                else if z = 2 then [⟨(1, 63, 2), .Up, 1⟩, ⟨(1, 63, 2), .North, 1⟩]
                else [⟨(1, 63, z), .Up, 1⟩])
              else if x = 2 then (List.range 16).flatMap (fun z =>
                if z = 1 then [⟨(2, 63, 1), .Up, 1⟩, ⟨(2, 63, 1), .West, 1⟩]
                else [⟨(2, 63, z), .Up, 1⟩])
              else (List.range 16).flatMap (fun z => [⟨(x, 63, z), .Up, 1⟩]))
          else [])) := by
  apply cullY_of_forall
  intro y hy
  have h256 := List.mem_range.mp hy
  by_cases h0 : y = 0
  · subst h0
    simpa using dug_layer_bottom
  · by_cases h62 : y = 62
    · subst h62
      simpa using dug_layer_62
    · by_cases h63 : y = 63
      · subst h63
        simpa using dug_layer_63
      · rw [if_neg h0, if_neg h62, if_neg h63]
        rcases Nat.lt_or_ge y 64 with h64 | h64
        · exact dug_layer_empty (Or.inl ⟨by omega, by omega⟩)
        · exact dug_layer_empty (Or.inr h64)

/-! ### Total face counts of single-chunk worlds -/

theorem totalVisibleFaces_single (w : World) (p : ChunkPosition) (c : Chunk)
    (hw : w.chunks = [(p, c)]) (fs : List VisibleFace)
    (h : cullFacesForChunk w c p = some fs) :
    totalVisibleFaces w = some fs.length := by
  simp [totalVisibleFaces, cullFaces, hw, cullChunksList, h]

/-! ## Claim theorem: slab scenario face counts -/

/-- C3: in a world holding exactly one chunk whose blocks for y < 64 are
all the solid type 1 and air above, the whole-world cull yields exactly
16 * 16 * 2 visible faces; after digging out the single block at local
(1, 63, 1), re-culling yields exactly 16 * 16 * 2 + 4 faces, and the
vacated cell itself contributes zero faces. -/
theorem slab_and_dug_world_face_counts :
    totalVisibleFaces slabWorld = some (16 * 16 * 2)
    ∧ totalVisibleFaces dugWorld = some (16 * 16 * 2 + 4)
    ∧ checkVisibleFacesForBlock (dugChunk.blocks 63 1 1) dugWorld dugChunk ⟨0, 0⟩ (1, 63, 1)
        = some [] := by
  refine ⟨?_, ?_, ?_⟩
  · exact (totalVisibleFaces_single slabWorld ⟨0, 0⟩ slabChunk rfl _ slab_cull).trans
      (by decide)
  · exact (totalVisibleFaces_single dugWorld ⟨0, 0⟩ dugChunk rfl _ dug_cull).trans
      (by decide)
  · rw [show dugChunk.blocks 63 1 1 = 0 from rfl]
    exact check_air

/-! ## Claim theorem: edge blocks and unloaded neighbors -/

/-- C4: a solid block on exactly one horizontal chunk edge (outward
direction `d`), with 0 < y < 255, in an otherwise-air chunk: when the
chunk across that edge is absent from the world, the cull yields exactly
5 faces — every direction except `d`; when that chunk is present, the
boundary face is visible exactly when the neighbor's block at the wrapped
local coordinate is transparent. -/
theorem edge_block_boundary_faces
    (w : World) (c : Chunk) (p : ChunkPosition) (x y z : Nat) (id : BlockTypeId)
    (d : Direction) (hy0 : 0 < y) (hy : y < 255) (hedge : edgeSpec x z d)
    (hid : id ≠ 0) (hop : w.block_registry.isBlockTransparent id = some false)
    (hair : w.block_registry.isBlockTransparent 0 = some true)
    (hc : ∀ y' x' z', ¬(y' = y ∧ x' = x ∧ z' = z) → c.blocks y' x' z' = 0) :
    (w.getChunk (neighborChunkPos p d) = none →
      ∃ fs, checkVisibleFacesForBlock id w c p (x, y, z) = some fs ∧
        fs.length = 5 ∧
        ∀ d' : Direction, ((⟨(x, y, z), d', id⟩ : VisibleFace) ∈ fs ↔ d' ≠ d))
    ∧ ∀ nc t, w.getChunk (neighborChunkPos p d) = some nc →
        w.block_registry.isBlockTransparent
          (nc.blocks y (wrappedCoord x z d).1 (wrappedCoord x z d).2) = some t →
        ∃ fs, checkVisibleFacesForBlock id w c p (x, y, z) = some fs ∧
          ((⟨(x, y, z), d, id⟩ : VisibleFace) ∈ fs ↔ t = true) := by
  cases d with
  | Up => exact absurd hedge (by simp [edgeSpec])
  | Down => exact absurd hedge (by simp [edgeSpec])
  | West =>
    obtain ⟨hx0, hz0, hz15⟩ := hedge
    subst hx0
    have hup : checkDir w c p id 0 y z .Up = some [⟨(0, y, z), .Up, id⟩] := by
      rw [checkDir_up_interior hy (by omega) (by omega), hc (y + 1) 0 z (by omega), hair]
      rfl
    have hdown : checkDir w c p id 0 y z .Down = some [⟨(0, y, z), .Down, id⟩] := by
      rw [checkDir_down_interior hy0 (by omega) (by omega), hc (y - 1) 0 z (by omega), hair]
      rfl
    have hnorth : checkDir w c p id 0 y z .North = some [⟨(0, y, z), .North, id⟩] := by
      rw [checkDir_north_interior (by omega) hz0 (by omega), hc y 0 (z - 1) (by omega), hair]
      rfl
    have hsouth : checkDir w c p id 0 y z .South = some [⟨(0, y, z), .South, id⟩] := by
      rw [checkDir_south_interior (by omega) hz15, hc y 0 (z + 1) (by omega), hair]
      rfl
    have heast : checkDir w c p id 0 y z .East = some [⟨(0, y, z), .East, id⟩] := by
      rw [checkDir_east_interior (by omega) (by omega), hc y 1 z (by omega), hair]
      rfl
    constructor
    · intro hn
      have hwest : checkDir w c p id 0 y z .West = some [] := by
        rw [checkDir_west_edge rfl (by omega), hn]
      refine ⟨[⟨(0, y, z), .Up, id⟩, ⟨(0, y, z), .Down, id⟩, ⟨(0, y, z), .North, id⟩,
          ⟨(0, y, z), .South, id⟩, ⟨(0, y, z), .East, id⟩], ?_, rfl, ?_⟩
      · rw [checkVisibleFacesForBlock_solid hid hop]
        simp [Direction.ALL, checkDirs, hup, hdown, hnorth, hsouth, heast, hwest]
      · intro d'
        cases d' <;> simp
    · intro nc t hnc ht
      have ht' : w.block_registry.isBlockTransparent (nc.blocks y 15 z) = some t := ht
      have hwest : checkDir w c p id 0 y z .West
          = some (if t then [⟨(0, y, z), .West, id⟩] else []) := by
        rw [checkDir_west_edge rfl (by omega), hnc]
        simp [ht']
      cases t
      · refine ⟨[⟨(0, y, z), .Up, id⟩, ⟨(0, y, z), .Down, id⟩, ⟨(0, y, z), .North, id⟩,
            ⟨(0, y, z), .South, id⟩, ⟨(0, y, z), .East, id⟩], ?_, ?_⟩
        · rw [checkVisibleFacesForBlock_solid hid hop]
          simp [Direction.ALL, checkDirs, hup, hdown, hnorth, hsouth, heast, hwest]
        · simp
      · refine ⟨[⟨(0, y, z), .Up, id⟩, ⟨(0, y, z), .Down, id⟩, ⟨(0, y, z), .North, id⟩,
            ⟨(0, y, z), .South, id⟩, ⟨(0, y, z), .East, id⟩, ⟨(0, y, z), .West, id⟩], ?_, ?_⟩
        · rw [checkVisibleFacesForBlock_solid hid hop]
          simp [Direction.ALL, checkDirs, hup, hdown, hnorth, hsouth, heast, hwest]
        · simp
  | East =>
    obtain ⟨hx15, hz0, hz15⟩ := hedge
    subst hx15
    have hup : checkDir w c p id 15 y z .Up = some [⟨(15, y, z), .Up, id⟩] := by
      rw [checkDir_up_interior hy (by omega) (by omega), hc (y + 1) 15 z (by omega), hair]
      rfl
    have hdown : checkDir w c p id 15 y z .Down = some [⟨(15, y, z), .Down, id⟩] := by
      rw [checkDir_down_interior hy0 (by omega) (by omega), hc (y - 1) 15 z (by omega), hair]
      rfl
    have hnorth : checkDir w c p id 15 y z .North = some [⟨(15, y, z), .North, id⟩] := by
      rw [checkDir_north_interior (by omega) hz0 (by omega), hc y 15 (z - 1) (by omega), hair]
      rfl
    have hsouth : checkDir w c p id 15 y z .South = some [⟨(15, y, z), .South, id⟩] := by
      rw [checkDir_south_interior (by omega) hz15, hc y 15 (z + 1) (by omega), hair]
      rfl
    have hwest : checkDir w c p id 15 y z .West = some [⟨(15, y, z), .West, id⟩] := by
      rw [checkDir_west_interior (by omega) (by omega) (by omega), hc y 14 z (by omega), hair]
      rfl
    constructor
    · intro hn
      have heast : checkDir w c p id 15 y z .East = some [] := by
        rw [checkDir_east_edge rfl (by omega), hn]
      refine ⟨[⟨(15, y, z), .Up, id⟩, ⟨(15, y, z), .Down, id⟩, ⟨(15, y, z), .North, id⟩,
          ⟨(15, y, z), .South, id⟩, ⟨(15, y, z), .West, id⟩], ?_, rfl, ?_⟩
      · rw [checkVisibleFacesForBlock_solid hid hop]
        simp [Direction.ALL, checkDirs, hup, hdown, hnorth, hsouth, heast, hwest]
      · intro d'
        cases d' <;> simp
    · intro nc t hnc ht
      have ht' : w.block_registry.isBlockTransparent (nc.blocks y 0 z) = some t := ht
      have heast : checkDir w c p id 15 y z .East
          = some (if t then [⟨(15, y, z), .East, id⟩] else []) := by
        rw [checkDir_east_edge rfl (by omega), hnc]
        simp [ht']
      cases t
      · refine ⟨[⟨(15, y, z), .Up, id⟩, ⟨(15, y, z), .Down, id⟩, ⟨(15, y, z), .North, id⟩,
            ⟨(15, y, z), .South, id⟩, ⟨(15, y, z), .West, id⟩], ?_, ?_⟩
        · rw [checkVisibleFacesForBlock_solid hid hop]
          simp [Direction.ALL, checkDirs, hup, hdown, hnorth, hsouth, heast, hwest]
        · simp
      · refine ⟨[⟨(15, y, z), .Up, id⟩, ⟨(15, y, z), .Down, id⟩, ⟨(15, y, z), .North, id⟩,
            ⟨(15, y, z), .South, id⟩, ⟨(15, y, z), .East, id⟩, ⟨(15, y, z), .West, id⟩], ?_, ?_⟩
        · rw [checkVisibleFacesForBlock_solid hid hop]
          simp [Direction.ALL, checkDirs, hup, hdown, hnorth, hsouth, heast, hwest]
        · simp
  | North =>
    obtain ⟨hz0, hx0, hx15⟩ := hedge
    subst hz0
    have hup : checkDir w c p id x y 0 .Up = some [⟨(x, y, 0), .Up, id⟩] := by
      rw [checkDir_up_interior hy (by omega) (by omega), hc (y + 1) x 0 (by omega), hair]
      rfl
    have hdown : checkDir w c p id x y 0 .Down = some [⟨(x, y, 0), .Down, id⟩] := by
      rw [checkDir_down_interior hy0 (by omega) (by omega), hc (y - 1) x 0 (by omega), hair]
      rfl
    have hsouth : checkDir w c p id x y 0 .South = some [⟨(x, y, 0), .South, id⟩] := by
      rw [checkDir_south_interior (by omega) (by omega), hc y x 1 (by omega), hair]
      rfl
    have heast : checkDir w c p id x y 0 .East = some [⟨(x, y, 0), .East, id⟩] := by
      rw [checkDir_east_interior hx15 (by omega), hc y (x + 1) 0 (by omega), hair]
      rfl
    have hwest : checkDir w c p id x y 0 .West = some [⟨(x, y, 0), .West, id⟩] := by
      rw [checkDir_west_interior hx0 (by omega) (by omega), hc y (x - 1) 0 (by omega), hair]
      rfl
    constructor
    · intro hn
      have hnorth : checkDir w c p id x y 0 .North = some [] := by
        rw [checkDir_north_edge rfl (by omega), hn]
      refine ⟨[⟨(x, y, 0), .Up, id⟩, ⟨(x, y, 0), .Down, id⟩, ⟨(x, y, 0), .South, id⟩,
          ⟨(x, y, 0), .East, id⟩, ⟨(x, y, 0), .West, id⟩], ?_, rfl, ?_⟩
      · rw [checkVisibleFacesForBlock_solid hid hop]
        simp [Direction.ALL, checkDirs, hup, hdown, hnorth, hsouth, heast, hwest]
      · intro d'
        cases d' <;> simp
    · intro nc t hnc ht
      have ht' : w.block_registry.isBlockTransparent (nc.blocks y x 15) = some t := ht
      have hnorth : checkDir w c p id x y 0 .North
          = some (if t then [⟨(x, y, 0), .North, id⟩] else []) := by
        rw [checkDir_north_edge rfl (by omega), hnc]
        simp [ht']
      cases t
      · refine ⟨[⟨(x, y, 0), .Up, id⟩, ⟨(x, y, 0), .Down, id⟩, ⟨(x, y, 0), .South, id⟩,
            ⟨(x, y, 0), .East, id⟩, ⟨(x, y, 0), .West, id⟩], ?_, ?_⟩
        · rw [checkVisibleFacesForBlock_solid hid hop]
          simp [Direction.ALL, checkDirs, hup, hdown, hnorth, hsouth, heast, hwest]
        · simp
      · refine ⟨[⟨(x, y, 0), .Up, id⟩, ⟨(x, y, 0), .Down, id⟩, ⟨(x, y, 0), .North, id⟩,
            ⟨(x, y, 0), .South, id⟩, ⟨(x, y, 0), .East, id⟩, ⟨(x, y, 0), .West, id⟩], ?_, ?_⟩
        · rw [checkVisibleFacesForBlock_solid hid hop]
          simp [Direction.ALL, checkDirs, hup, hdown, hnorth, hsouth, heast, hwest]
        · simp
  | South =>
    obtain ⟨hz15, hx0, hx15⟩ := hedge
    subst hz15
    have hup : checkDir w c p id x y 15 .Up = some [⟨(x, y, 15), .Up, id⟩] := by
      rw [checkDir_up_interior hy (by omega) (by omega), hc (y + 1) x 15 (by omega), hair]
      rfl
    have hdown : checkDir w c p id x y 15 .Down = some [⟨(x, y, 15), .Down, id⟩] := by
      rw [checkDir_down_interior hy0 (by omega) (by omega), hc (y - 1) x 15 (by omega), hair]
      rfl
    have hnorth : checkDir w c p id x y 15 .North = some [⟨(x, y, 15), .North, id⟩] := by
      rw [checkDir_north_interior (by omega) (by omega) (by omega), hc y x 14 (by omega), hair]
      rfl
    have heast : checkDir w c p id x y 15 .East = some [⟨(x, y, 15), .East, id⟩] := by
      rw [checkDir_east_interior hx15 (by omega), hc y (x + 1) 15 (by omega), hair]
      rfl
    have hwest : checkDir w c p id x y 15 .West = some [⟨(x, y, 15), .West, id⟩] := by
      rw [checkDir_west_interior hx0 (by omega) (by omega), hc y (x - 1) 15 (by omega), hair]
      rfl
    constructor
    · intro hn
      have hsouth : checkDir w c p id x y 15 .South = some [] := by
        rw [checkDir_south_edge rfl (by omega), hn]
      refine ⟨[⟨(x, y, 15), .Up, id⟩, ⟨(x, y, 15), .Down, id⟩, ⟨(x, y, 15), .North, id⟩,
          ⟨(x, y, 15), .East, id⟩, ⟨(x, y, 15), .West, id⟩], ?_, rfl, ?_⟩
      · rw [checkVisibleFacesForBlock_solid hid hop]
        simp [Direction.ALL, checkDirs, hup, hdown, hnorth, hsouth, heast, hwest]
      · intro d'
        cases d' <;> simp
    · intro nc t hnc ht
      have ht' : w.block_registry.isBlockTransparent (nc.blocks y x 0) = some t := ht
      have hsouth : checkDir w c p id x y 15 .South
          = some (if t then [⟨(x, y, 15), .South, id⟩] else []) := by
        rw [checkDir_south_edge rfl (by omega), hnc]
        simp [ht']
      cases t
      · refine ⟨[⟨(x, y, 15), .Up, id⟩, ⟨(x, y, 15), .Down, id⟩, ⟨(x, y, 15), .North, id⟩,
            ⟨(x, y, 15), .East, id⟩, ⟨(x, y, 15), .West, id⟩], ?_, ?_⟩
        · rw [checkVisibleFacesForBlock_solid hid hop]
          simp [Direction.ALL, checkDirs, hup, hdown, hnorth, hsouth, heast, hwest]
        · simp
      · refine ⟨[⟨(x, y, 15), .Up, id⟩, ⟨(x, y, 15), .Down, id⟩, ⟨(x, y, 15), .North, id⟩,
            ⟨(x, y, 15), .South, id⟩, ⟨(x, y, 15), .East, id⟩, ⟨(x, y, 15), .West, id⟩], ?_, ?_⟩
        · rw [checkVisibleFacesForBlock_solid hid hop]
          simp [Direction.ALL, checkDirs, hup, hdown, hnorth, hsouth, heast, hwest]
        · simp

/-- Witness for C4: a single solid block at local (0, 64, 8) on the west
edge of the only chunk of `singleEdgeWorld`; the chunk at (-1, 0) is
absent, so the block shows 5 faces, all but West. -/
theorem edge_block_boundary_faces_witness :
    (singleEdgeWorld.getChunk (neighborChunkPos ⟨0, 0⟩ .West) = none →
      ∃ fs, checkVisibleFacesForBlock 1 singleEdgeWorld singleEdgeChunk ⟨0, 0⟩ (0, 64, 8) = some fs ∧
        fs.length = 5 ∧
        ∀ d' : Direction, ((⟨(0, 64, 8), d', 1⟩ : VisibleFace) ∈ fs ↔ d' ≠ .West))
    ∧ ∀ nc t, singleEdgeWorld.getChunk (neighborChunkPos ⟨0, 0⟩ .West) = some nc →
        singleEdgeWorld.block_registry.isBlockTransparent
          (nc.blocks 64 (wrappedCoord 0 8 .West).1 (wrappedCoord 0 8 .West).2) = some t →
        ∃ fs, checkVisibleFacesForBlock 1 singleEdgeWorld singleEdgeChunk ⟨0, 0⟩ (0, 64, 8) = some fs ∧
          ((⟨(0, 64, 8), .West, 1⟩ : VisibleFace) ∈ fs ↔ t = true) :=
  edge_block_boundary_faces singleEdgeWorld singleEdgeChunk ⟨0, 0⟩ 0 64 8 1 .West
    (by omega) (by omega) (by exact ⟨rfl, by omega, by omega⟩) (by decide) rfl rfl
    (fun y' x' z' h => by
      simp only [singleEdgeChunk]
      rw [if_neg (by omega)])

/-! ## Claim theorems: culling basics -/

/-- C5: a non-air block whose registered type is transparent always
contributes exactly the six faces of `all_faces`, one per direction,
independently of every neighboring cell or chunk (the world and chunk are
universally quantified, and no neighbor is inspected). -/
theorem transparent_block_all_six_faces (id : BlockTypeId) (w : World)
    (c : Chunk) (cp : ChunkPosition) (bpos : Nat × Nat × Nat)
    (hid : id ≠ 0) (ht : w.block_registry.isBlockTransparent id = some true) :
    checkVisibleFacesForBlock id w c cp bpos = some (VisibleFace.allFaces bpos id)
    ∧ (VisibleFace.allFaces bpos id).length = 6
    ∧ ∀ d : Direction, (⟨bpos, d, id⟩ : VisibleFace) ∈ VisibleFace.allFaces bpos id := by
  refine ⟨?_, rfl, ?_⟩
  · simp [checkVisibleFacesForBlock, hid, ht]
  · intro d
    cases d <;> simp [VisibleFace.allFaces, Direction.ALL]

/-- Witness for C5: block type 1 of `glassRegistry` is transparent and
yields all six faces in an empty world. -/
theorem transparent_block_all_six_faces_witness :
    checkVisibleFacesForBlock 1 ⟨[], glassRegistry⟩ Chunk.defaultChunk ⟨0, 0⟩ (3, 4, 5)
      = some (VisibleFace.allFaces (3, 4, 5) 1)
    ∧ (VisibleFace.allFaces (3, 4, 5) 1).length = 6
    ∧ ∀ d : Direction, (⟨(3, 4, 5), d, 1⟩ : VisibleFace) ∈ VisibleFace.allFaces (3, 4, 5) 1 :=
  transparent_block_all_six_faces 1 ⟨[], glassRegistry⟩ Chunk.defaultChunk ⟨0, 0⟩
    (3, 4, 5) (by decide) rfl

/-- C6: a solid (non-air, registered non-transparent) block at the grid
ceiling y = 255 always has its Up face in the cull result, and at the grid
floor y = 0 its Down face, for every world and chunk contents and
independently of which chunks are loaded. -/
theorem solid_block_vertical_boundary_faces (id : BlockTypeId) (w : World)
    (c : Chunk) (cp : ChunkPosition) (x z : Nat)
    (hid : id ≠ 0) (hop : w.block_registry.isBlockTransparent id = some false) :
    (∀ fs, checkVisibleFacesForBlock id w c cp (x, 255, z) = some fs →
      (⟨(x, 255, z), .Up, id⟩ : VisibleFace) ∈ fs)
    ∧ (∀ fs, checkVisibleFacesForBlock id w c cp (x, 0, z) = some fs →
      (⟨(x, 0, z), .Down, id⟩ : VisibleFace) ∈ fs) := by
  constructor
  · intro fs h
    rw [checkVisibleFacesForBlock_solid hid hop] at h
    rw [show Direction.ALL = .Up :: [.Down, .North, .South, .East, .West] from rfl,
      checkDirs_cons_eq_some] at h
    obtain ⟨l, r, hd, -, rfl⟩ := h
    rw [checkDir_up_boundary (by omega)] at hd
    cases hd
    simp
  · intro fs h
    rw [checkVisibleFacesForBlock_solid hid hop] at h
    rw [show Direction.ALL = .Up :: [.Down, .North, .South, .East, .West] from rfl,
      checkDirs_cons_eq_some] at h
    obtain ⟨l, r, -, h, rfl⟩ := h
    rw [show ([Direction.Down, .North, .South, .East, .West])
        = .Down :: [.North, .South, .East, .West] from rfl,
      checkDirs_cons_eq_some] at h
    obtain ⟨l2, r2, hd2, -, rfl⟩ := h
    rw [checkDir_down_boundary rfl] at hd2
    cases hd2
    simp

/-- Witness for C6: solid block type 1 of `testRegistry`, in an empty
world, has its Up face at y = 255 and its Down face at y = 0. -/
theorem solid_block_vertical_boundary_faces_witness :
    (∀ fs, checkVisibleFacesForBlock 1 ⟨[], testRegistry⟩ Chunk.defaultChunk ⟨0, 0⟩ (8, 255, 8) = some fs →
      (⟨(8, 255, 8), .Up, 1⟩ : VisibleFace) ∈ fs)
    ∧ (∀ fs, checkVisibleFacesForBlock 1 ⟨[], testRegistry⟩ Chunk.defaultChunk ⟨0, 0⟩ (8, 0, 8) = some fs →
      (⟨(8, 0, 8), .Down, 1⟩ : VisibleFace) ∈ fs) :=
  solid_block_vertical_boundary_faces 1 ⟨[], testRegistry⟩ Chunk.defaultChunk ⟨0, 0⟩
    8 8 (by decide) rfl

/-- C8: block id 0 (air) is always treated as fully transparent and
non-renderable: `is_block_transparent(0)` returns `true` for every registry
either constructor produces, and a block with id 0 contributes zero
visible faces in every cull, for every registry whatsoever — the air test
short-circuits before any registry lookup. -/
theorem air_always_transparent :
    (∀ tr r, BlockRegistry.new tr = some r → r.isBlockTransparent 0 = some true)
    ∧ BlockRegistry.defaultRegistry.isBlockTransparent 0 = some true
    ∧ ∀ (w : World) (c : Chunk) (cp : ChunkPosition) (bpos : Nat × Nat × Nat),
        checkVisibleFacesForBlock 0 w c cp bpos = some [] := by
  refine ⟨?_, rfl, ?_⟩
  · intro tr r h
    simp only [BlockRegistry.new, bind, Option.bind_eq_some, pure,
      Option.some_inj] at h
    obtain ⟨i, -, j, -, rfl⟩ := h
    rfl
  · intro w c cp bpos
    simp [checkVisibleFacesForBlock]

/-- Witness for C8: `BlockRegistry::new` on a texture registry holding
stone and grass yields a registry whose id 0 is transparent; and air
contributes no faces in the slab world, whose registry does not even
matter for the air case. -/
theorem air_always_transparent_witness :
    ((BlockRegistry.new fullTextureRegistry).getD BlockRegistry.defaultRegistry).isBlockTransparent 0
      = some true
    ∧ checkVisibleFacesForBlock 0 slabWorld slabChunk ⟨0, 0⟩ (8, 200, 8) = some [] :=
  ⟨air_always_transparent.1 fullTextureRegistry
      ((BlockRegistry.new fullTextureRegistry).getD BlockRegistry.defaultRegistry) rfl,
    air_always_transparent.2.2 slabWorld slabChunk ⟨0, 0⟩ (8, 200, 8)⟩

/-! ## Claim theorem: totality of culling under registered ids -/

theorem isBlockTransparent_isSome {r : BlockRegistry} {id : BlockTypeId}
    (h : id < r.block_types.length) : (r.isBlockTransparent id).isSome := by
  rw [BlockRegistry.isBlockTransparent, List.get?_eq_get h]
  rfl

theorem getChunk_mem {w : World} {q : ChunkPosition} {nc : Chunk}
    (h : w.getChunk q = some nc) : ∃ q', (q', nc) ∈ w.chunks := by
  rw [World.getChunk] at h
  cases hf : w.chunks.find? (fun e => decide (e.1 = q)) with
  | none => rw [hf] at h; cases h
  | some e =>
    rw [hf] at h
    cases h
    exact ⟨e.1, by simpa using List.mem_of_find?_eq_some hf⟩

theorem checkDir_isSome (w : World) (c : Chunk) (q : ChunkPosition)
    (id : BlockTypeId) {x y z : Nat} (d : Direction)
    (hx : x < 16) (hy : y < 256) (hz : z < 16) (hr : RegisteredWorld w c) :
    (checkDir w c q id x y z d).isSome := by
  have hwrapX : ∀ a : Int, ((a + 16) % 16).toNat < 16 := by
    intro a
    have h1 := Int.emod_nonneg (a + 16) (show (16 : Int) ≠ 0 by decide)
    have h2 := Int.emod_lt_of_pos (a + 16) (show (0 : Int) < 16 by decide)
    omega
  have hedgeSome : ∀ (u : ChunkPosition) (wx wz : Nat), wx < 16 → wz < 16 →
      (match w.getChunk u with
        | none => some ([] : List VisibleFace)
        | some nc =>
          (w.block_registry.isBlockTransparent (nc.blocks y wx wz)).map
            (fun t : Bool => if t then [⟨(x, y, z), d, id⟩] else [])).isSome := by
    intro u wx wz hwx hwz
    cases hq : w.getChunk u with
    | none => rfl
    | some nc =>
      obtain ⟨u', hmem⟩ := getChunk_mem hq
      have hlt := hr nc (Or.inr ⟨u', hmem⟩) y wx wz hy hwx hwz
      have := isBlockTransparent_isSome hlt
      cases hsome : w.block_registry.isBlockTransparent (nc.blocks y wx wz) with
      | none => rw [hsome] at this; cases this
      | some t => simp [hsome]
  cases d with
  | Up =>
    rcases Nat.lt_or_ge y 255 with h255 | h255
    · rw [checkDir_up_interior h255 hx hz]
      have hlt := hr c (Or.inl rfl) (y + 1) x z (by omega) hx hz
      have := isBlockTransparent_isSome hlt
      cases hs : w.block_registry.isBlockTransparent (c.blocks (y + 1) x z) with
      | none => rw [hs] at this; cases this
      | some t => simp [hs]
    · rw [checkDir_up_boundary h255]
      rfl
  | Down =>
    rcases Nat.eq_zero_or_pos y with h0 | h0
    · rw [checkDir_down_boundary h0]
      rfl
    · rw [checkDir_down_interior h0 hx hz]
      have hlt := hr c (Or.inl rfl) (y - 1) x z (by omega) hx hz
      have := isBlockTransparent_isSome hlt
      cases hs : w.block_registry.isBlockTransparent (c.blocks (y - 1) x z) with
      | none => rw [hs] at this; cases this
      | some t => simp [hs]
  | North =>
    rcases Nat.eq_zero_or_pos z with h0 | h0
    · rw [checkDir_north_edge h0 hx]
      exact hedgeSome _ x 15 hx (by omega)
    · rw [checkDir_north_interior hx h0 hz]
      have hlt := hr c (Or.inl rfl) y x (z - 1) hy hx (by omega)
      have := isBlockTransparent_isSome hlt
      cases hs : w.block_registry.isBlockTransparent (c.blocks y x (z - 1)) with
      | none => rw [hs] at this; cases this
      | some t => simp [hs]
  | South =>
    rcases eq_or_lt_of_le (Nat.lt_succ_iff.mp hz) with h15 | h15
    · rw [checkDir_south_edge h15 hx]
      exact hedgeSome _ x 0 hx (by omega)
    · rw [checkDir_south_interior hx (by omega)]
      have hlt := hr c (Or.inl rfl) y x (z + 1) hy hx (by omega)
      have := isBlockTransparent_isSome hlt
      cases hs : w.block_registry.isBlockTransparent (c.blocks y x (z + 1)) with
      | none => rw [hs] at this; cases this
      | some t => simp [hs]
  | East =>
    rcases eq_or_lt_of_le (Nat.lt_succ_iff.mp hx) with h15 | h15
    · rw [checkDir_east_edge h15 hz]
      exact hedgeSome _ 0 z (by omega) hz
    · rw [checkDir_east_interior (by omega) hz]
      have hlt := hr c (Or.inl rfl) y (x + 1) z hy (by omega) hz
      have := isBlockTransparent_isSome hlt
      cases hs : w.block_registry.isBlockTransparent (c.blocks y (x + 1) z) with
      | none => rw [hs] at this; cases this
      | some t => simp [hs]
  | West =>
    rcases Nat.eq_zero_or_pos x with h0 | h0
    · rw [checkDir_west_edge h0 hz]
      exact hedgeSome _ 15 z (by omega) hz
    · rw [checkDir_west_interior h0 hx hz]
      have hlt := hr c (Or.inl rfl) y (x - 1) z hy (by omega) hz
      have := isBlockTransparent_isSome hlt
      cases hs : w.block_registry.isBlockTransparent (c.blocks y (x - 1) z) with
      | none => rw [hs] at this; cases this
      | some t => simp [hs]

theorem checkDirs_isSome (w : World) (c : Chunk) (p : ChunkPosition)
    (id : BlockTypeId) {x y z : Nat} :
    ∀ ds : List Direction, (∀ d ∈ ds, (checkDir w c p id x y z d).isSome) →
      (checkDirs w c p id x y z ds).isSome
  | [], _ => rfl
  | d :: ds, h => by
    have hd := h d (by simp)
    have hds := checkDirs_isSome w c p id ds (fun d' hd' => h d' (by simp [hd']))
    cases hcd : checkDir w c p id x y z d with
    | none => rw [hcd] at hd; cases hd
    | some l =>
      cases hcds : checkDirs w c p id x y z ds with
      | none => rw [hcds] at hds; cases hds
      | some r => simp [checkDirs, hcd, hcds]

theorem checkVisibleFacesForBlock_isSome (w : World) (c : Chunk)
    (p : ChunkPosition) {x y z : Nat}
    (hx : x < 16) (hy : y < 256) (hz : z < 16) (hr : RegisteredWorld w c) :
    (checkVisibleFacesForBlock (c.blocks y x z) w c p (x, y, z)).isSome := by
  rw [checkVisibleFacesForBlock]
  by_cases h0 : c.blocks y x z = 0
  · rw [if_pos h0]
    rfl
  · rw [if_neg h0]
    have hlt := hr c (Or.inl rfl) y x z hy hx hz
    have hts := isBlockTransparent_isSome hlt
    cases hs : w.block_registry.isBlockTransparent (c.blocks y x z) with
    | none => rw [hs] at hts; cases hts
    | some t =>
      cases t with
      | true => simp [hs]
      | false =>
        have := checkDirs_isSome w c p (c.blocks y x z)
          Direction.ALL (fun d _ => checkDir_isSome w c p (c.blocks y x z) d hx hy hz hr)
        simp only [hs, Option.bind_eq_bind, Option.some_bind, if_false,
          Bool.false_eq_true]
        exact this

theorem cullZ_isSome (w : World) (c : Chunk) (p : ChunkPosition) {y x : Nat}
    (hx : x < 16) (hy : y < 256) (hr : RegisteredWorld w c) :
    ∀ l : List Nat, (∀ z ∈ l, z < 16) → (cullZ w c p y x l).isSome
  | [], _ => rfl
  | z :: zs, h => by
    have hz := checkVisibleFacesForBlock_isSome w c p hx hy (h z (by simp)) hr
    have hzs := cullZ_isSome w c p hx hy hr zs (fun z' hz' => h z' (by simp [hz']))
    cases h1 : checkVisibleFacesForBlock (c.blocks y x z) w c p (x, y, z) with
    | none => rw [h1] at hz; cases hz
    | some l1 =>
      cases h2 : cullZ w c p y x zs with
      | none => rw [h2] at hzs; cases hzs
      | some l2 => simp [cullZ, h1, h2]

theorem cullX_isSome (w : World) (c : Chunk) (p : ChunkPosition) {y : Nat}
    (hy : y < 256) (hr : RegisteredWorld w c) :
    ∀ l : List Nat, (∀ x ∈ l, x < 16) → (cullX w c p y l).isSome
  | [], _ => rfl
  | x :: xs, h => by
    have hx := cullZ_isSome w c p (h x (by simp)) hy hr (List.range 16)
      (fun z hz => List.mem_range.mp hz)
    have hxs := cullX_isSome w c p hy hr xs (fun x' hx' => h x' (by simp [hx']))
    cases h1 : cullZ w c p y x (List.range 16) with
    | none => rw [h1] at hx; cases hx
    | some l1 =>
      cases h2 : cullX w c p y xs with
      | none => rw [h2] at hxs; cases hxs
      | some l2 => simp [cullX, h1, h2]

theorem cullY_isSome (w : World) (c : Chunk) (p : ChunkPosition)
    (hr : RegisteredWorld w c) :
    ∀ l : List Nat, (∀ y ∈ l, y < 256) → (cullY w c p l).isSome
  | [], _ => rfl
  | y :: ys, h => by
    have hy := cullX_isSome w c p (h y (by simp)) hr (List.range 16)
      (fun x hx => List.mem_range.mp hx)
    have hys := cullY_isSome w c p hr ys (fun y' hy' => h y' (by simp [hy']))
    cases h1 : cullX w c p y (List.range 16) with
    | none => rw [h1] at hy; cases hy
    | some l1 =>
      cases h2 : cullY w c p ys with
      | none => rw [h2] at hys; cases hys
      | some l2 => simp [cullY, h1, h2]

/-- C10: when every block id stored in the culled chunk and in every chunk
of the world is strictly below the registry size, `cull_faces_for_chunk`
is total — no registry lookup panics; and without the precondition a
single unregistered id aborts the pass, as in `unregWorld` (block id 5
under the air-only default registry). -/
theorem cull_chunk_total_on_registered_world (w : World) (c : Chunk)
    (p : ChunkPosition) (hr : RegisteredWorld w c) :
    (cullFacesForChunk w c p).isSome
    ∧ cullFacesForChunk unregWorld unregChunk ⟨0, 0⟩ = none := by
  constructor
  · exact cullY_isSome w c p hr (List.range 256) (fun y hy => List.mem_range.mp hy)
  · decide

/-- Witness for C10: the empty world with the default registry and an
all-air chunk satisfies the precondition, and culling it succeeds. -/
theorem cull_chunk_total_on_registered_world_witness :
    (cullFacesForChunk ⟨[], BlockRegistry.defaultRegistry⟩ Chunk.defaultChunk ⟨0, 0⟩).isSome
    ∧ cullFacesForChunk unregWorld unregChunk ⟨0, 0⟩ = none :=
  cull_chunk_total_on_registered_world ⟨[], BlockRegistry.defaultRegistry⟩
    Chunk.defaultChunk ⟨0, 0⟩
    (fun c' h y x z _ _ _ => by
      rcases h with rfl | ⟨q, hq⟩
      · simp [Chunk.defaultChunk, BlockRegistry.defaultRegistry]
      · cases hq)

/-! ## Lemmas about the GPU chunk storage -/

theorem findEntry_key {s : GpuChunkStorage} {pos : ChunkPosition}
    {e : ChunkPosition × Nat × Finset Nat} (h : s.findEntry pos = some e) :
    e.1 = pos := by
  have := List.find?_some h
  simpa using this

theorem findEntry_mem {s : GpuChunkStorage} {pos : ChunkPosition}
    {e : ChunkPosition × Nat × Finset Nat} (h : s.findEntry pos = some e) :
    e ∈ s.chunk_blocks_map :=
  List.mem_of_find?_eq_some h

theorem eq_of_mem_keys_nodup {α β : Type} :
    ∀ {l : List (α × β)}, (l.map (fun e => e.1)).Nodup →
      ∀ {e f : α × β}, e ∈ l → f ∈ l → e.1 = f.1 → e = f
  | [], _, _, _, he, _, _ => absurd he (List.not_mem_nil _)
  | a :: t, hn, e, f, he, hf, hef => by
    rw [List.map_cons, List.nodup_cons] at hn
    rcases List.mem_cons.mp he with rfl | he'
    · rcases List.mem_cons.mp hf with rfl | hf'
      · rfl
      · exact absurd (hef ▸ List.mem_map_of_mem (fun e => e.1) hf') hn.1
    · rcases List.mem_cons.mp hf with rfl | hf'
      · exact absurd (hef ▸ List.mem_map_of_mem (fun e => e.1) he') hn.1
      · exact eq_of_mem_keys_nodup hn.2 he' hf' hef

theorem slotInv_new (n : Nat) (buf0 : Nat → Nat → GpuBlock)
    (idx0 : Nat → Nat × Nat) : SlotInv n (GpuChunkStorage.new n buf0 idx0) := by
  refine ⟨by simp [GpuChunkStorage.new], by simp [GpuChunkStorage.new, GpuChunkStorage.assignedSlots], ?_, ?_, ?_⟩
  · simp only [GpuChunkStorage.new]
    exact List.nodup_reverse.mpr (List.nodup_range n)
  · simp [GpuChunkStorage.new, GpuChunkStorage.assignedSlots]
  · intro i
    simp [GpuChunkStorage.new, GpuChunkStorage.assignedSlots, List.mem_reverse,
      List.mem_range]

theorem slotInv_update {n : Nat} {s s' : GpuChunkStorage} {pos : ChunkPosition}
    {us : List ChunkUpdate} (hin : SlotInv n s) (h : s.update pos us = some s') :
    SlotInv n s' := by
  obtain ⟨hkeys, hslots, hholes, hdisj, huniv⟩ := hin
  rw [GpuChunkStorage.update] at h
  cases hf : s.findEntry pos with
  | some e =>
    obtain ⟨fp, slot, occ⟩ := e
    have hfp : fp = pos := findEntry_key hf
    have hfmem := findEntry_mem hf
    rw [hf] at h
    simp only [Option.some_inj] at h
    subst h
    have hkeyeq : (s.chunk_blocks_map.map
          (fun e => if e.1 = pos then
            (pos, slot, (applyUpdates s.chunk_buffer slot occ us).2) else e)).map
          (fun e => e.1)
        = s.chunk_blocks_map.map (fun e => e.1) := by
      rw [List.map_map]
      refine List.map_congr_left (fun e _ => ?_)
      by_cases hh : e.1 = pos <;> simp [hh]
    have hsloteq : (s.chunk_blocks_map.map
          (fun e => if e.1 = pos then
            (pos, slot, (applyUpdates s.chunk_buffer slot occ us).2) else e)).map
          (fun e => e.2.1)
        = s.chunk_blocks_map.map (fun e => e.2.1) := by
      rw [List.map_map]
      refine List.map_congr_left (fun e he => ?_)
      by_cases hh : e.1 = pos
      · have he2 : e = (fp, slot, occ) :=
          eq_of_mem_keys_nodup hkeys he hfmem (by rw [hh, hfp])
        rw [he2]
        simp [hfp]
      · simp [hh]
    simp only [SlotInv, GpuChunkStorage.assignedSlots]
    refine ⟨?_, ?_, hholes, ?_, ?_⟩
    · rw [hkeyeq]
      exact hkeys
    · rw [hsloteq]
      exact hslots
    · intro i hi
      rw [hsloteq] at hi
      exact hdisj i hi
    · intro i
      rw [hsloteq]
      exact huniv i
  | none =>
    rw [hf] at h
    cases hlast : s.chunk_holes.getLast? with
    | none =>
      rw [hlast] at h
      cases h
    | some slot =>
      rw [hlast] at h
      simp only [Option.some_inj] at h
      subst h
      have hdecomp : s.chunk_holes.dropLast ++ [slot] = s.chunk_holes :=
        List.dropLast_append_getLast? slot (by rw [Option.mem_def]; exact hlast)
      have hsplit := List.nodup_append.mp (hdecomp ▸ hholes)
      have hslotholes : slot ∈ s.chunk_holes := by
        rw [← hdecomp]
        simp
      have hmemiff : ∀ i, i ∈ s.chunk_holes ↔ i ∈ s.chunk_holes.dropLast ∨ i = slot := by
        intro i
        rw [← hdecomp]
        simp
      have hposfresh : ∀ e ∈ s.chunk_blocks_map, ¬(e.1 = pos) := by
        intro e he
        have := List.find?_eq_none.mp hf e he
        simpa using this
      simp only [SlotInv, GpuChunkStorage.assignedSlots]
      refine ⟨?_, ?_, hsplit.1, ?_, ?_⟩
      · simp only [List.map_cons, List.nodup_cons]
        exact ⟨fun hmem => by
          obtain ⟨e, he, hkey⟩ := List.mem_map.mp hmem
          exact hposfresh e he hkey, hkeys⟩
      · simp only [List.map_cons, List.nodup_cons]
        refine ⟨fun hmem => hdisj slot hmem hslotholes, hslots⟩
      · intro i hi
        simp only [List.map_cons, List.mem_cons] at hi
        rcases hi with rfl | hi'
        · rcases hsplit.2 with ⟨-, hdisj2⟩
          intro hcontra
          exact hdisj2 hcontra (by simp)
        · intro hcontra
          exact hdisj i hi' ((hmemiff i).mpr (Or.inl hcontra))
      · intro i
        rw [← huniv i]
        simp only [List.map_cons, List.mem_cons]
        rw [hmemiff i]
        tauto

theorem slotInv_reachable {n : Nat} {s : GpuChunkStorage}
    (hr : Reachable n s) : SlotInv n s := by
  induction hr with
  | init buf0 idx0 => exact slotInv_new n buf0 idx0
  | step _ h ih => exact slotInv_update ih h
  | upload _ ih => exact ih

/-! ## Claim theorems: storage invariants and capacity -/

/-- C7: in every state reachable by `new` and successful `update` and
`upload_indices` calls, the assigned slot ids are pairwise distinct,
disjoint from the free list `chunk_holes`, and together with the free
list exactly cover the slot range `[0, n)`. -/
theorem slot_assignment_partition (n : Nat) (s : GpuChunkStorage)
    (hr : Reachable n s) :
    (s.chunk_blocks_map.map (fun e => e.2.1)).Nodup
    ∧ (∀ e ∈ s.chunk_blocks_map, e.2.1 ∉ s.chunk_holes)
    ∧ (∀ i : Nat, i < n ↔ (i ∈ s.chunk_holes ∨ ∃ e ∈ s.chunk_blocks_map, e.2.1 = i)) := by
  obtain ⟨hkeys, hslots, hholes, hdisj, huniv⟩ := slotInv_reachable hr
  refine ⟨hslots, ?_, ?_⟩
  · intro e he
    exact hdisj e.2.1 (List.mem_map_of_mem _ he)
  · intro i
    rw [← huniv i]
    simp only [GpuChunkStorage.assignedSlots, List.mem_map]

/-- Witness for C7: the capacity-2 state `sampleStorage`, one update deep. -/
theorem slot_assignment_partition_witness :
    (sampleStorage.chunk_blocks_map.map (fun e => e.2.1)).Nodup
    ∧ (∀ e ∈ sampleStorage.chunk_blocks_map, e.2.1 ∉ sampleStorage.chunk_holes)
    ∧ (∀ i : Nat, i < 2 ↔
        (i ∈ sampleStorage.chunk_holes ∨ ∃ e ∈ sampleStorage.chunk_blocks_map, e.2.1 = i)) :=
  slot_assignment_partition 2 sampleStorage
    (@Reachable.step 2 (GpuChunkStorage.new 2 zeroBuf zeroIdx) sampleStorage
      ⟨0, 0⟩ [⟨5, some ⟨1, 2, 3⟩⟩, ⟨7, some ⟨4, 5, 6⟩⟩, ⟨7, none⟩]
      (Reachable.init zeroBuf zeroIdx) rfl)

/-- C2: immediately after `new(n)` the free list holds exactly the n
distinct slot ids `[0, n)`; and once n distinct chunk positions hold
entries, the first `update` on a fresh position fails (the `unwrap` on the
empty free list, modelled as `none`). -/
theorem free_list_covers_and_capacity_exhausts (n : Nat)
    (buf0 : Nat → Nat → GpuBlock) (idx0 : Nat → Nat × Nat)
    (s : GpuChunkStorage) (pos : ChunkPosition) (us : List ChunkUpdate)
    (hr : Reachable n s) (hn : s.chunk_blocks_map.length = n)
    (hfresh : s.findEntry pos = none) :
    ((GpuChunkStorage.new n buf0 idx0).chunk_holes.Nodup
      ∧ ∀ i : Nat, i ∈ (GpuChunkStorage.new n buf0 idx0).chunk_holes ↔ i < n)
    ∧ s.update pos us = none := by
  refine ⟨⟨List.nodup_reverse.mpr (List.nodup_range n), ?_⟩, ?_⟩
  · intro i
    simp [GpuChunkStorage.new, List.mem_reverse, List.mem_range]
  · obtain ⟨hkeys, hslots, hholes, hdisj, huniv⟩ := slotInv_reachable hr
    have hslotslen : s.assignedSlots.length = n := by
      simp [GpuChunkStorage.assignedSlots, hn]
    have hholesnil : s.chunk_holes = [] := by
      rw [List.eq_nil_iff_forall_not_mem]
      intro i hi
      have hin : i < n := (huniv i).mp (Or.inl hi)
      have hsub : s.assignedSlots.toFinset ⊆ Finset.range n := by
        intro j hj
        rw [List.mem_toFinset] at hj
        rw [Finset.mem_range]
        exact (huniv j).mp (Or.inr hj)
      have hcard : s.assignedSlots.toFinset.card = n := by
        rw [List.toFinset_card_of_nodup hslots, hslotslen]
      have heq : s.assignedSlots.toFinset = Finset.range n :=
        Finset.eq_of_subset_of_card_le hsub (by rw [hcard, Finset.card_range])
      have hmem : i ∈ s.assignedSlots.toFinset := by
        rw [heq, Finset.mem_range]
        exact hin
      exact hdisj i (List.mem_toFinset.mp hmem) hi
    rw [GpuChunkStorage.update, hfresh, hholesnil]
    rfl

/-- Witness for C2: a capacity-1 storage whose slot is taken by (0, 0);
updating the fresh position (1, 0) fails. -/
theorem free_list_covers_and_capacity_exhausts_witness :
    ((GpuChunkStorage.new 1 zeroBuf zeroIdx).chunk_holes.Nodup
      ∧ ∀ i : Nat, i ∈ (GpuChunkStorage.new 1 zeroBuf zeroIdx).chunk_holes ↔ i < 1)
    ∧ oneStorage.update ⟨1, 0⟩ [⟨0, some ⟨0, 0, 0⟩⟩] = none :=
  free_list_covers_and_capacity_exhausts 1 zeroBuf zeroIdx oneStorage ⟨1, 0⟩
    [⟨0, some ⟨0, 0, 0⟩⟩]
    (@Reachable.step 1 (GpuChunkStorage.new 1 zeroBuf zeroIdx) oneStorage
      ⟨0, 0⟩ [] (Reachable.init zeroBuf zeroIdx) rfl)
    rfl rfl

/-! ## Claim theorem: removal updates issue no buffer write -/

/-- C9: applying `update` with a single payload-free `ChunkUpdate`
(removal) removes its local index from the chunk's occupied set and leaves
the chunk payload buffer unchanged at every slot and local index. -/
theorem removal_update_no_buffer_write (s : GpuChunkStorage)
    (pos : ChunkPosition) (u : ChunkUpdate) (s' : GpuChunkStorage)
    (hu : u.block = none) (h : s.update pos [u] = some s') :
    (∀ ci bi, s'.chunk_buffer ci bi = s.chunk_buffer ci bi)
    ∧ s'.occOf pos = (s.occOf pos).erase u.block_index := by
  obtain ⟨idx, blk⟩ := u
  simp only at hu
  subst hu
  rw [GpuChunkStorage.update] at h
  cases hf : s.findEntry pos with
  | some e =>
    obtain ⟨fp, slot, occ⟩ := e
    have hfp : fp = pos := findEntry_key hf
    rw [hf] at h
    simp only [Option.some_inj] at h
    subst h
    refine ⟨fun ci bi => rfl, ?_⟩
    have hpf : ((fun e => decide (e.1 = pos)) ∘
          (fun e : ChunkPosition × Nat × Finset Nat =>
            if e.1 = pos then (pos, slot, (applyUpdates s.chunk_buffer slot occ [⟨idx, none⟩]).2) else e))
        = (fun e => decide (e.1 = pos)) := by
      funext e
      by_cases hh : e.1 = pos <;> simp [hh]
    simp only [GpuChunkStorage.occOf, GpuChunkStorage.findEntry]
    rw [List.find?_map, hpf]
    rw [show s.chunk_blocks_map.find? (fun e => decide (e.1 = pos)) = some (fp, slot, occ) from hf]
    simp [hfp, GpuChunkStorage.occOf, GpuChunkStorage.findEntry, hf, applyUpdates]
  | none =>
    rw [hf] at h
    cases hlast : s.chunk_holes.getLast? with
    | none =>
      rw [hlast] at h
      cases h
    | some slot =>
      rw [hlast] at h
      simp only [Option.some_inj] at h
      subst h
      refine ⟨fun ci bi => rfl, ?_⟩
      simp only [GpuChunkStorage.occOf, GpuChunkStorage.findEntry]
      rw [List.find?_cons_of_pos _ (by simp)]
      rw [show List.find? (fun e => decide (e.1 = pos)) s.chunk_blocks_map = none from hf]
      simp [applyUpdates]

/-- Witness for C9: removing local index 5 from `sampleStorage` leaves
its payload buffer untouched and erases 5 from the occupied set. -/
theorem removal_update_no_buffer_write_witness :
    (∀ ci bi, ((sampleStorage.update ⟨0, 0⟩ [⟨5, none⟩]).getD sampleStorage).chunk_buffer ci bi
        = sampleStorage.chunk_buffer ci bi)
    ∧ ((sampleStorage.update ⟨0, 0⟩ [⟨5, none⟩]).getD sampleStorage).occOf ⟨0, 0⟩
        = (sampleStorage.occOf ⟨0, 0⟩).erase 5 :=
  removal_update_no_buffer_write sampleStorage ⟨0, 0⟩ ⟨5, none⟩
    ((sampleStorage.update ⟨0, 0⟩ [⟨5, none⟩]).getD sampleStorage) rfl rfl

/-! ## Claim theorem: index rebuild is a faithful projection -/

theorem writeIndices_snd :
    ∀ (ps : List (Nat × Nat)) (buf : Nat → Nat × Nat) (i : Nat),
      (writeIndices buf i ps).2 = i + ps.length
  | [], _, i => by simp [writeIndices]
  | p :: ps, buf, i => by
    rw [writeIndices, writeIndices_snd ps _ (i + 1), List.length_cons]
    omega

theorem writeIndices_lt :
    ∀ (ps : List (Nat × Nat)) (buf : Nat → Nat × Nat) (i j : Nat), j < i →
      (writeIndices buf i ps).1 j = buf j
  | [], _, _, _, _ => rfl
  | p :: ps, buf, i, j, hj => by
    rw [writeIndices, writeIndices_lt ps _ (i + 1) j (by omega)]
    simp [Nat.ne_of_lt hj]

theorem writeIndices_range :
    ∀ (ps : List (Nat × Nat)) (buf : Nat → Nat × Nat) (i : Nat),
      (List.range ps.length).map (fun k => (writeIndices buf i ps).1 (i + k)) = ps
  | [], _, _ => rfl
  | p :: ps, buf, i => by
    rw [List.length_cons, List.range_succ_eq_map, List.map_cons, List.map_map,
      writeIndices]
    congr 1
    · rw [writeIndices_lt ps _ (i + 1) (i + 0) (by omega)]
      simp
    · refine Eq.trans (List.map_congr_left fun k _ => ?_)
        (writeIndices_range ps (fun j => if j = i then p else buf j) (i + 1))
      have harg : i + (k + 1) = (i + 1) + k := by omega
      show (writeIndices _ (i + 1) ps).1 (i + (k + 1)) = (writeIndices _ (i + 1) ps).1 ((i + 1) + k)
      rw [harg]

theorem uploadIndices_snd (s : GpuChunkStorage) :
    s.uploadIndices.2 = s.indexPairs.length := by
  simp [GpuChunkStorage.uploadIndices, writeIndices_snd]

theorem uploadIndices_firstEntries (s : GpuChunkStorage) :
    (List.range s.uploadIndices.2).map s.uploadIndices.1.index_buffer
      = s.indexPairs := by
  have h := writeIndices_range s.indexPairs s.index_buffer 0
  rw [uploadIndices_snd]
  simpa using h

theorem indexPairs_length (s : GpuChunkStorage) :
    s.indexPairs.length = (s.chunk_blocks_map.map (fun e => e.2.2.card)).sum := by
  simp [GpuChunkStorage.indexPairs, Function.comp_def]

theorem indexPairs_mem (s : GpuChunkStorage) (a b : Nat) :
    (a, b) ∈ s.indexPairs ↔ ∃ e ∈ s.chunk_blocks_map, e.2.1 = a ∧ b ∈ e.2.2 := by
  simp only [GpuChunkStorage.indexPairs, List.mem_flatMap, List.mem_map,
    Finset.mem_sort, Prod.mk.injEq]
  constructor
  · rintro ⟨e, he, bi, hbi, rfl, rfl⟩
    exact ⟨e, he, rfl, hbi⟩
  · rintro ⟨e, he, rfl, hb⟩
    exact ⟨e, he, b, hb, rfl, rfl⟩

/-- C1: for every storage state, `upload_indices` returns exactly the sum
of the occupied-set cardinalities over all mapped chunks; the first
`count` entries of the index buffer are exactly the pairs
`(slot, local_index)` with `local_index` occupied in the chunk assigned
`slot`; and a second call with no intervening update returns the same
count and writes the same entries. -/
theorem upload_indices_faithful_projection (s : GpuChunkStorage) :
    s.uploadIndices.2 = (s.chunk_blocks_map.map (fun e => e.2.2.card)).sum
    ∧ (∀ a b : Nat,
        (a, b) ∈ (List.range s.uploadIndices.2).map s.uploadIndices.1.index_buffer
          ↔ ∃ e ∈ s.chunk_blocks_map, e.2.1 = a ∧ b ∈ e.2.2)
    ∧ s.uploadIndices.1.uploadIndices.2 = s.uploadIndices.2
    ∧ (List.range s.uploadIndices.1.uploadIndices.2).map
          s.uploadIndices.1.uploadIndices.1.index_buffer
        = (List.range s.uploadIndices.2).map s.uploadIndices.1.index_buffer := by
  have hpairs : s.uploadIndices.1.indexPairs = s.indexPairs := rfl
  refine ⟨?_, ?_, ?_, ?_⟩
  · rw [uploadIndices_snd, indexPairs_length]
  · intro a b
    rw [uploadIndices_firstEntries]
    exact indexPairs_mem s a b
  · rw [uploadIndices_snd, uploadIndices_snd, hpairs]
  · rw [uploadIndices_firstEntries, uploadIndices_firstEntries, hpairs]

end BlockWorld
